import Mathlib

/-!
Shallow embedding of the hierarchical dependency-injection container
implemented by the class `SimpleContainer` (src/unnamed/part_003).

Modelling choices, all documented next to each definition:
* Tokens are strings (the source allows strings and symbols; both are
  opaque comparable map keys).
* Service instances are modelled as `Value`s carrying a unique creation
  identifier (`vid`, drawn from a world-level counter, which models
  JavaScript object identity), a `truthy` flag (JavaScript truthiness of
  the value, relevant because the source guards its caches with
  `if (!entry.instance))`, a `disposable` flag (whether the structural
  check `isDisposable` succeeds on the value) and a `disposeFails` flag
  (whether calling `dispose()` on the value throws).
* Factories are modelled as value producers: each invocation yields a
  fresh `Value` whose attributes are those declared by the factory.
  Re-entrant factories (factories that call back into the container) are
  outside the scope of the claims and are not modelled.
* The container hierarchy lives in a `World`: a flat list of `Node`s
  addressed by index, plus the fresh-identifier counter and an event
  trace recording factory invocations and instance disposals.
* Asynchronous methods are modelled as state-passing functions returning
  `Except Err result` together with the updated world; a thrown
  exception is an `Except.error` that leaves all mutations performed
  before the throw in place, as in JavaScript.
* The methods `resolve` and `dispose` recurse through the parent /
  children links of the world graph, so they take a fuel parameter;
  running out of fuel yields the modelling artifact `Err.model`, which
  never occurs on worlds reachable from a root container with enough
  fuel.
* All extension hooks (`beforeRegister`, `afterRegister`,
  `tryCustomResolve`, `beforeResolve`, `afterResolve`,
  `onSingletonCreated`, `onTransientCreated`, `onScopedCreated`,
  `onScopeCreated`, `beforeDispose`, `afterDispose`) are the base-class
  no-ops of `SimpleContainer`; `tryCustomResolve` returns `none`
  (JavaScript `undefined`) and `handleMissingService` throws.
-/

namespace FlowContainer

/-- The three lifetime kinds of `IFlowServiceMetadata.scope`. -/
inductive Scope where
  | singleton
  | transient
  | scoped
deriving DecidableEq

/-- A factory, modelled by an identity `fid` plus the attributes of the
values it produces.  Invoking it allocates a fresh `Value`. -/
structure Factory where
  fid : Nat
  truthy : Bool
  disposable : Bool
  disposeFails : Bool
deriving DecidableEq

/-- A service instance: `vid` models JavaScript object identity (fresh per
factory invocation), the flags model truthiness, the structural
disposable check, and whether its `dispose()` method throws. -/
structure Value where
  vid : Nat
  truthy : Bool
  disposable : Bool
  disposeFails : Bool
deriving DecidableEq

/-- `IFlowServiceMetadata`: token, scope, optional tags and an optional
opaque key-value record (source field `metadata`, modelled as an
association list). -/
structure ServiceMetadata where
  token : String
  scope : Scope
  tags : Option (List String)
  metadata : Option (List (String × String))
deriving DecidableEq

/-- The optional metadata argument of `register`, modelling the TypeScript
type with every field of `IFlowServiceMetadata` optional. -/
structure MetadataArg where
  scope : Option Scope
  tags : Option (List String)
  metadata : Option (List (String × String))
deriving DecidableEq

/-- A `ServiceEntry`: factory, metadata and the optional cached instance
(source field `instance`, unset = JavaScript `undefined`). -/
structure ServiceEntry where
  factory : Factory
  metadata : ServiceMetadata
  inst : Option Value
deriving DecidableEq

/-- Observable events: a factory invocation (labelled with the token being
resolved and the factory identity) and an instance disposal attempt
(labelled with the node whose cache held the instance). -/
inductive Event where
  | factoryRun (token : String) (fid : Nat)
  | disp (node : Nat) (vid : Nat)
deriving DecidableEq

/-- Errors: exceptions thrown by the container itself (carrying the
message), exceptions thrown by a user instance `dispose()` method, and
modelling artifacts (missing node reference / fuel exhaustion) that
never occur on reachable worlds with sufficient fuel. -/
inductive Err where
  | containerError (msg : String)
  | instanceFailure (vid : Nat)
  | model (msg : String)
deriving DecidableEq

/-- A container node: the fields `services`, `scopes`, `parent` and
`_isDisposed` of `SimpleContainer`.  The services map is an association
list in insertion order (JavaScript `Map` iteration order); `scopes` is
the set of child nodes in insertion order; `parent` is an optional node
index. -/
structure Node where
  services : List (String × ServiceEntry)
  scopes : List Nat
  parent : Option Nat
  isDisposed : Bool
deriving DecidableEq

/-- The world: all nodes (addressed by index), the fresh-identifier
counter for instance identities, and the event trace. -/
structure World where
  nodes : List Node
  nextId : Nat
  events : List Event
deriving DecidableEq

/-- Fetch a node by index. -/
def World.node? (W : World) (n : Nat) : Option Node :=
  W.nodes[n]?

/-- Update a node in place (no-op on a dangling index). -/
def World.modifyNode (W : World) (n : Nat) (f : Node → Node) : World :=
  match W.nodes[n]? with
  | some nd => { W with nodes := W.nodes.set n (f nd) }
  | none => W

/-- Append one event to the trace. -/
def World.emit (W : World) (e : Event) : World :=
  { W with events := W.events ++ [e] }

/-- First entry stored under a token (JavaScript `Map.get`; keys are
unique in every reachable world). -/
def lookupEntry : List (String × ServiceEntry) → String → Option ServiceEntry
  | [], _ => none
  | (s, e) :: rest, t => if s = t then some e else lookupEntry rest t

/-- JavaScript `Map.set`: replace the value at an existing key keeping its
position, otherwise append. -/
def setEntry : List (String × ServiceEntry) → String → ServiceEntry → List (String × ServiceEntry)
  | [], t, e => [(t, e)]
  | (s, e0) :: rest, t, e => if s = t then (t, e) :: rest else (s, e0) :: setEntry rest t e

/-- `validateNotDisposed(operation)`: throws
`Cannot <operation> on disposed container` when the node is disposed.
(The source message is identical; the embedding keeps it verbatim.) -/
def validateNotDisposed (op : String) (nd : Node) : Option Err :=
  if nd.isDisposed then some (Err.containerError ("Cannot " ++ op ++ " on disposed container")) else none

/-- `createServiceEntry(token, factory, metadata)`: builds the entry; the
scope falls back to `getDefaultScope()` = `singleton` when unset
(JavaScript `metadata?.scope || this.getDefaultScope()`; scope values
are nonempty strings, so the fallback fires exactly on `undefined`). -/
def createServiceEntry (token : String) (factory : Factory) (meta : Option MetadataArg) : ServiceEntry :=
  { factory := factory
    metadata :=
      { token := token
        scope := (meta.bind (fun m => m.scope)).getD Scope.singleton
        tags := meta.bind (fun m => m.tags)
        metadata := meta.bind (fun m => m.metadata) }
    inst := none }

/-- `register(token, factory, metadata)`: disposed check, build the entry,
`services.set` (last registration wins).  The `beforeRegister` and
`afterRegister` hooks are base-class no-ops. -/
def register (n : Nat) (token : String) (factory : Factory) (meta : Option MetadataArg)
    (W : World) : Except Err Unit × World :=
  match W.node? n with
  | none => (Except.error (Err.model ("missing node")), W)
  | some nd =>
    match validateNotDisposed ("register") nd with
    | some e => (Except.error e, W)
    | none =>
      let entry := createServiceEntry token factory meta
      (Except.ok (),
        W.modifyNode n (fun nd0 => { nd0 with services := setEntry nd0.services token entry }))

/-- `createInstance(factory)` = `await factory(this)`: allocates a fresh
value with the factory's attributes, records the invocation in the
trace (labelled with the token under resolution). -/
def createInstance (factory : Factory) (token : String) (W : World) : Value × World :=
  let v : Value :=
    { vid := W.nextId, truthy := factory.truthy, disposable := factory.disposable
      disposeFails := factory.disposeFails }
  (v, { W with nextId := W.nextId + 1, events := W.events ++ [Event.factoryRun token factory.fid] })

/-- The value produced by one factory invocation in world `W` (the first
component of `createInstance`). -/
def freshValue (factory : Factory) (W : World) : Value :=
  { vid := W.nextId, truthy := factory.truthy, disposable := factory.disposable
    disposeFails := factory.disposeFails }

/-- Write `entry.instance = v` back into the node's map.  In the source
this mutates the entry object held by the `Map`; since modelled
factories do not re-enter the container, that entry is still the one
looked up at the start of resolution. -/
def cacheInstance (n : Nat) (token : String) (v : Value) (W : World) : World :=
  W.modifyNode n (fun nd =>
    { nd with services :=
        match lookupEntry nd.services token with
        | some e => setEntry nd.services token { e with inst := some v }
        | none => nd.services })

/-- The guard `if (!entry.instance)`: the cached value is used only when
it is present and truthy; an unset or falsy cache triggers a fresh
factory invocation. -/
def truthyCached (e : ServiceEntry) : Option Value :=
  match e.inst with
  | some v => if v.truthy then some v else none
  | none => none

/-- `resolveSingleton(token, entry)`: return the (truthy) cached instance,
otherwise create, cache and return.  `onSingletonCreated` is a no-op. -/
def resolveSingleton (n : Nat) (token : String) (e : ServiceEntry) (W : World) :
    Except Err Value × World :=
  match truthyCached e with
  | some v => (Except.ok v, W)
  | none =>
    let p := createInstance e.factory token W
    (Except.ok p.1, cacheInstance n token p.1 p.2)

/-- `resolveTransient(token, entry)`: always create a fresh instance,
never cache.  `onTransientCreated` is a no-op. -/
def resolveTransient (token : String) (e : ServiceEntry) (W : World) :
    Except Err Value × World :=
  let p := createInstance e.factory token W
  (Except.ok p.1, p.2)

/-- `resolveScoped(token, entry)`: with a parent, behave like a singleton
local to this node (`onScopedCreated` is a no-op); at the root, behave
like transient. -/
def resolveScoped (n : Nat) (nd : Node) (token : String) (e : ServiceEntry) (W : World) :
    Except Err Value × World :=
  match nd.parent with
  | some _ =>
    match truthyCached e with
    | some v => (Except.ok v, W)
    | none =>
      let p := createInstance e.factory token W
      (Except.ok p.1, cacheInstance n token p.1 p.2)
  | none => resolveTransient token e W

/-- `resolveEntry(token, entry)`: dispatch on the scope.  `beforeResolve`
and `afterResolve` are no-ops; the `default` branch of the source
(`resolveCustomScope`, which throws `Unknown scope`) is unreachable
because `Scope` has exactly the three declared lifetimes. -/
def resolveEntry (n : Nat) (nd : Node) (token : String) (e : ServiceEntry) (W : World) :
    Except Err Value × World :=
  match e.metadata.scope with
  | Scope.singleton => resolveSingleton n token e W
  | Scope.transient => resolveTransient token e W
  | Scope.scoped => resolveScoped n nd token e W

/-- The base-class `tryCustomResolve` returns `undefined`. -/
def tryCustomResolve (_token : String) : Option Value :=
  none

/-- `resolve(token)`: disposed check, custom-resolution hook, own entries,
parent delegation, `handleMissingService` (which throws
`Service <token> not registered`; the source wraps the token in
single-quote characters, omitted here). -/
def resolve : Nat → Nat → String → World → Except Err Value × World
  | 0, _, _, W => (Except.error (Err.model ("fuel")), W)
  | fuel + 1, n, token, W =>
    match W.node? n with
    | none => (Except.error (Err.model ("missing node")), W)
    | some nd =>
      match validateNotDisposed ("resolve") nd with
      | some e => (Except.error e, W)
      | none =>
        match tryCustomResolve token with
        | some v => (Except.ok v, W)
        | none =>
          match lookupEntry nd.services token with
          | some e => resolveEntry n nd token e W
          | none =>
            match nd.parent with
            | some p => resolve fuel p token W
            | none =>
              (Except.error (Err.containerError ("Service " ++ token ++ " not registered")), W)

/-- `has(token)`: own map, else parent (no disposed check), with fuel for
the parent recursion. -/
def hasAux : Nat → Nat → String → World → Bool
  | 0, _, _, _ => false
  | fuel + 1, n, token, W =>
    match W.node? n with
    | none => false
    | some nd =>
      (lookupEntry nd.services token).isSome ||
        (match nd.parent with
          | some p => hasAux fuel p token W
          | none => false)

/-- `has(token)` with the canonical fuel `n + 1`, sufficient whenever
parent indices decrease (true in every reachable world). -/
def has (W : World) (n : Nat) (token : String) : Bool :=
  hasAux (n + 1) n token W

/-- Insertion into the token accumulator: JavaScript `Set.add` keeps the
first occurrence. -/
def addToken (acc : List String) (t : String) : List String :=
  if t ∈ acc then acc else acc ++ [t]

/-- `getTokens()`: a `Set` seeded with the own keys, then the parent's
tokens added recursively, returned in insertion order. -/
def getTokensAux : Nat → Nat → World → List String
  | 0, _, _ => []
  | fuel + 1, n, W =>
    match W.node? n with
    | none => []
    | some nd =>
      let own := (nd.services.map Prod.fst).foldl addToken []
      match nd.parent with
      | some p => (getTokensAux fuel p W).foldl addToken own
      | none => own

/-- `getTokens()` with the canonical fuel `n + 1`. -/
def getTokens (W : World) (n : Nat) : List String :=
  getTokensAux (n + 1) n W

/-- `shouldCopyToScope(entry)`: singletons are resolved from the parent,
all other entries are copied. -/
def shouldCopyToScope (e : ServiceEntry) : Bool :=
  e.metadata.scope != Scope.singleton

/-- `copyServicesToScope(scope)`: iterate the source map in order and
`set` each copied entry in the (initially empty) child map, sharing the
factory, duplicating the metadata (`{ ...entry.metadata }` copies a
value equal to the original) and leaving `instance` unset. -/
def copyServicesToScope (src : List (String × ServiceEntry)) : List (String × ServiceEntry) :=
  src.foldl
    (fun acc pr =>
      if shouldCopyToScope pr.2 then
        setEntry acc pr.1 { factory := pr.2.factory, metadata := pr.2.metadata, inst := none }
      else acc)
    []

/-- `createScope()`: disposed check, create the child with this node as
parent, add it to `scopes`, copy the non-singleton services.
`onScopeCreated` is a no-op.  The child is allocated at the next free
index `W.nodes.length`. -/
def createScope (n : Nat) (W : World) : Except Err Nat × World :=
  match W.node? n with
  | none => (Except.error (Err.model ("missing node")), W)
  | some nd =>
    match validateNotDisposed ("createScope") nd with
    | some e => (Except.error e, W)
    | none =>
      let newId := W.nodes.length
      let child : Node :=
        { services := copyServicesToScope nd.services, scopes := [], parent := some n
          isDisposed := false }
      (Except.ok newId,
        { W with nodes := (W.nodes.set n { nd with scopes := nd.scopes ++ [newId] }) ++ [child] })

/-- `disposeService(token, instance)`: if the instance passes the
structural disposable check, call its `dispose()` (recorded as a
`disp` event tagged with the owning node); a throwing `dispose()`
propagates as `instanceFailure`. -/
def disposeService (n : Nat) (v : Value) (W : World) : Except Err Unit × World :=
  if v.disposable then
    let W1 := W.emit (Event.disp n v.vid)
    if v.disposeFails then (Except.error (Err.instanceFailure v.vid), W1) else (Except.ok (), W1)
  else (Except.ok (), W)

/-- The loop body of `disposeServices`: `if (entry.instance)` guards with
JavaScript truthiness, then awaits `disposeService`; an exception
aborts the remaining iterations (there is no try/catch in the source). -/
def disposeEntryList (n : Nat) : List (String × ServiceEntry) → World → Except Err Unit × World
  | [], W => (Except.ok (), W)
  | pr :: rest, W =>
    match pr.2.inst with
    | some v =>
      if v.truthy then
        match disposeService n v W with
        | (Except.ok _, W1) => disposeEntryList n rest W1
        | (Except.error e, W1) => (Except.error e, W1)
      else disposeEntryList n rest W
    | none => disposeEntryList n rest W

/-- `disposeServices()`: iterate this node's own entries. -/
def disposeServices (n : Nat) (W : World) : Except Err Unit × World :=
  match W.node? n with
  | none => (Except.error (Err.model ("missing node")), W)
  | some nd => disposeEntryList n nd.services W

/-- The child loop `for (const scope of this.scopes) await scope.dispose()`,
abstracted over the recursive call; an exception from a child aborts
the remaining iterations. -/
def disposeLoop (d : Nat → World → Except Err Unit × World) :
    List Nat → World → Except Err Unit × World
  | [], W => (Except.ok (), W)
  | c :: rest, W =>
    match d c W with
    | (Except.ok _, W1) => disposeLoop d rest W1
    | (Except.error e, W1) => (Except.error e, W1)

/-- `dispose()`: return immediately when already disposed; otherwise
(`beforeDispose` is a no-op) dispose every child scope in order, clear
`scopes`, dispose the own cached instances, clear `services`, set the
disposed flag (`afterDispose` is a no-op). -/
def dispose : Nat → Nat → World → Except Err Unit × World
  | 0, _, W => (Except.error (Err.model ("fuel")), W)
  | fuel + 1, n, W =>
    match W.node? n with
    | none => (Except.error (Err.model ("missing node")), W)
    | some nd =>
      if nd.isDisposed then (Except.ok (), W)
      else
        match disposeLoop (dispose fuel) nd.scopes W with
        | (Except.error e, W1) => (Except.error e, W1)
        | (Except.ok _, W1) =>
          let W2 := W1.modifyNode n (fun nd0 => { nd0 with scopes := [] })
          match disposeServices n W2 with
          | (Except.error e, W3) => (Except.error e, W3)
          | (Except.ok _, W3) =>
            (Except.ok (),
              W3.modifyNode n (fun nd0 => { nd0 with services := [], isDisposed := true }))

/-- The disposal events `disposeServices` emits for a node's own entry
list when it completes: one `disp` per entry holding a truthy cached
instance that passes the structural disposable check. -/
def ownDisposeEvents (n : Nat) (l : List (String × ServiceEntry)) : List Event :=
  l.filterMap
    (fun pr =>
      match pr.2.inst with
      | some v => if v.truthy && v.disposable then some (Event.disp n v.vid) else none
      | none => none)

/-- Well-formedness of a node list: every child index is strictly larger
than its parent's index. -/
@[reducible]
def scopesWellFormed (ns : List Node) : Prop :=
  ∀ i, (h : i < ns.length) → ∀ c ∈ (ns.get ⟨i, h⟩).scopes, i < c

/-- Well-formedness of the scope hierarchy of a world.  This holds in
every world reachable from a root container, because `createScope`
allocates each child at the next free index. -/
@[reducible]
def wfScopes (W : World) : Prop :=
  scopesWellFormed W.nodes

/-- Overwrite one node's disposed flag, leaving services, scopes and
parent untouched (used to state that `has` and `getTokens` are
insensitive to disposal state: the source performs no
`validateNotDisposed` check in either). -/
def World.setDisposed (W : World) (m : Nat) (b : Bool) : World :=
  W.modifyNode m (fun nd => { nd with isDisposed := b })

/-- Well-formedness of parent links in a node list: every parent index is
strictly smaller than its child's index. -/
@[reducible]
def parentsWellFormed (ns : List Node) : Prop :=
  ∀ i, (h : i < ns.length) → ∀ p, (ns.get ⟨i, h⟩).parent = some p → p < i

/-- Well-formedness of the parent links of a world; holds in every world
reachable from a root container. -/
@[reducible]
def wfParents (W : World) : Prop :=
  parentsWellFormed W.nodes

/-- Invariants of one `dispose` call (conclusion of the frame lemma):
node count preserved; disposed flags never unset; under a well-formed
hierarchy the hierarchy stays well-formed, nodes with indices below the
disposed node are untouched, and every appended event is a disposal
tagged with a node index at or below which the cascade ran; a
successful call leaves the node marked disposed. -/
def DisposeInv (n : Nat) (W : World) (r : Except Err Unit) (W' : World) : Prop :=
  W'.nodes.length = W.nodes.length ∧
  (∀ i : Nat, ∀ ndi ndi' : Node, W.nodes[i]? = some ndi → W'.nodes[i]? = some ndi' →
    ndi.isDisposed = true → ndi'.isDisposed = true) ∧
  (wfScopes W →
    wfScopes W' ∧
    (∀ i, i < n → W'.nodes[i]? = W.nodes[i]?) ∧
    ∃ tail, W'.events = W.events ++ tail ∧
      ∀ ev ∈ tail, ∃ j u, ev = Event.disp j u ∧ n ≤ j) ∧
  (r = Except.ok () → ∃ nd', W'.nodes[n]? = some nd' ∧ nd'.isDisposed = true)

/-- Invariants of the child-disposal loop over a list of node indices. -/
def LoopInv (l : List Nat) (W : World) (r : Except Err Unit) (W' : World) : Prop :=
  W'.nodes.length = W.nodes.length ∧
  (∀ i : Nat, ∀ ndi ndi' : Node, W.nodes[i]? = some ndi → W'.nodes[i]? = some ndi' →
    ndi.isDisposed = true → ndi'.isDisposed = true) ∧
  (wfScopes W →
    wfScopes W' ∧
    (∀ i, (∀ c ∈ l, i < c) → W'.nodes[i]? = W.nodes[i]?) ∧
    ∃ tail, W'.events = W.events ++ tail ∧
      ∀ ev ∈ tail, ∃ j u, ev = Event.disp j u ∧ ∃ c ∈ l, c ≤ j) ∧
  (r = Except.ok () → ∀ c ∈ l, ∃ ndc, W'.nodes[c]? = some ndc ∧ ndc.isDisposed = true)

/-!
Interleaving model of `resolveSingleton` under the cooperative
concurrency of §5: `entry.instance = await this.createInstance(entry.factory)`
calls the factory synchronously after the `if (!entry.instance)` check,
suspends while the factory's promise is pending, and performs the
assignment to `entry.instance` only on resumption.  A resolution task is
therefore a two-phase machine: phase one (`start`) reads the cache and,
on a miss, invokes the factory (the run counter increments) and suspends
awaiting the produced value; phase two (`awaiting`) resumes, writes the
value into the cache, and returns it.  The scheduler interleaves the
tasks at these suspension points.  The factory is modelled as producing
fresh truthy instances (here: fresh identifiers). -/

namespace SingleFlight

/-- The shared state of one service entry: the cached instance (source
field `instance`), the fresh-identifier counter and the number of
factory invocations observed. -/
structure CState where
  inst : Option Nat
  nextId : Nat
  runs : Nat
deriving DecidableEq

/-- One `resolve` call for the entry: not yet past the cache check,
suspended awaiting the factory's value, or completed with its result. -/
inductive TaskState where
  | start
  | awaiting (v : Nat)
  | done (v : Nat)
deriving DecidableEq

/-- One scheduler step of a task, mirroring `resolveSingleton`:
from `start`, a cached instance completes the call immediately,
otherwise the factory runs and the task suspends; from `awaiting v`,
the resumption assigns `entry.instance = v` and completes. -/
def step : TaskState → CState → TaskState × CState
  | TaskState.start, s =>
    match s.inst with
    | some v => (TaskState.done v, s)
    | none =>
      (TaskState.awaiting s.nextId,
        { inst := s.inst, nextId := s.nextId + 1, runs := s.runs + 1 })
  | TaskState.awaiting v, s => (TaskState.done v, { s with inst := some v })
  | TaskState.done v, s => (TaskState.done v, s)

/-- A system of two concurrent `resolve` calls on the same entry. -/
structure Sys where
  t0 : TaskState
  t1 : TaskState
  st : CState
deriving DecidableEq

/-- Run one scheduled task. -/
def runTask (sys : Sys) (i : Bool) : Sys :=
  if i then
    let p := step sys.t1 sys.st
    { sys with t1 := p.1, st := p.2 }
  else
    let p := step sys.t0 sys.st
    { sys with t0 := p.1, st := p.2 }

/-- Run a schedule (a list of task choices). -/
def runSched (sched : List Bool) (sys : Sys) : Sys :=
  sched.foldl runTask sys

/-- The initial system: both calls issued before either completes, on an
entry with no cached instance. -/
def init : Sys :=
  { t0 := TaskState.start, t1 := TaskState.start, st := { inst := none, nextId := 0, runs := 0 } }

end SingleFlight

namespace Ex

/-- A factory producing truthy, non-disposable values. -/
def facT : Factory := { fid := 1, truthy := true, disposable := false, disposeFails := false }

/-- A factory producing falsy values (JavaScript examples: `0`, an empty
string, `false`), legitimate results of `FlowServiceFactory<T>`. -/
def facF : Factory := { fid := 2, truthy := false, disposable := false, disposeFails := false }

/-- A factory producing truthy disposable values whose disposal succeeds. -/
def facD : Factory := { fid := 3, truthy := true, disposable := true, disposeFails := false }

/-- A factory producing truthy disposable values whose disposal throws. -/
def facDX : Factory := { fid := 4, truthy := true, disposable := true, disposeFails := true }

/-- Build a service entry with the given attributes and empty optional
metadata fields. -/
def entry (fac : Factory) (t : String) (sc : Scope) (iv : Option Value) : ServiceEntry :=
  { factory := fac
    metadata := { token := t, scope := sc, tags := none, metadata := none }
    inst := iv }

/-- A root container holding one singleton entry for token `a` whose
factory produces truthy values. -/
def W2 : World :=
  { nodes := [{ services := [(("a"), entry facT ("a") Scope.singleton none)], scopes := []
                parent := none, isDisposed := false }]
    nextId := 0, events := [] }

/-- A root container holding one singleton entry for token `a` whose
factory produces falsy values. -/
def W2f : World :=
  { nodes := [{ services := [(("a"), entry facF ("a") Scope.singleton none)], scopes := []
                parent := none, isDisposed := false }]
    nextId := 0, events := [] }

/-- A hierarchy for the scoped lifetime: a root holding a scoped entry
for token `s` (truthy factory) with two child scopes, each holding its
own copy of the scoped entry, uncached. -/
def W3 : World :=
  { nodes :=
      [{ services := [(("s"), entry facT ("s") Scope.scoped none)], scopes := [1, 2]
         parent := none, isDisposed := false },
       { services := [(("s"), entry facT ("s") Scope.scoped none)], scopes := []
         parent := some 0, isDisposed := false },
       { services := [(("s"), entry facT ("s") Scope.scoped none)], scopes := []
         parent := some 0, isDisposed := false }]
    nextId := 0, events := [] }

/-- A root with one child scope holding a scoped entry whose factory
produces falsy values. -/
def W3f : World :=
  { nodes :=
      [{ services := [], scopes := [1], parent := none, isDisposed := false },
       { services := [(("s"), entry facF ("s") Scope.scoped none)], scopes := []
         parent := some 0, isDisposed := false }]
    nextId := 0, events := [] }

/-- An already-resolved singleton instance. -/
def vS : Value := { vid := 100, truthy := true, disposable := false, disposeFails := false }

/-- An already-resolved scoped instance. -/
def vSc : Value := { vid := 101, truthy := true, disposable := false, disposeFails := false }

/-- A root holding a resolved singleton entry, an unresolved transient
entry and a resolved scoped entry (for the scope-copy claims). -/
def W4 : World :=
  { nodes :=
      [{ services :=
          [(("sg"), entry facT ("sg") Scope.singleton (some vS)),
           (("tr"), entry facT ("tr") Scope.transient none),
           (("sc"), entry facD ("sc") Scope.scoped (some vSc))]
         scopes := [], parent := none, isDisposed := false }]
    nextId := 102, events := [] }

/-- A cached disposable instance whose disposal succeeds. -/
def vD : Value := { vid := 7, truthy := true, disposable := true, disposeFails := false }

/-- A root with one cached disposable singleton instance. -/
def W7 : World :=
  { nodes :=
      [{ services := [(("a"), entry facD ("a") Scope.singleton (some vD))], scopes := []
         parent := none, isDisposed := false }]
    nextId := 8, events := [] }

/-- A cached disposable instance whose disposal throws. -/
def vDX : Value := { vid := 10, truthy := true, disposable := true, disposeFails := true }

/-- A second cached disposable instance whose disposal succeeds. -/
def vD2 : Value := { vid := 11, truthy := true, disposable := true, disposeFails := false }

/-- A root with two cached disposable singleton instances; disposing the
first one throws. -/
def W9 : World :=
  { nodes :=
      [{ services :=
          [(("a"), entry facDX ("a") Scope.singleton (some vDX)),
           (("b"), entry facD ("b") Scope.singleton (some vD2))]
         scopes := [], parent := none, isDisposed := false }]
    nextId := 12, events := [] }

/-- A cached disposable instance owned by the root. -/
def vR : Value := { vid := 20, truthy := true, disposable := true, disposeFails := false }

/-- A cached disposable instance owned by the child scope. -/
def vC : Value := { vid := 21, truthy := true, disposable := true, disposeFails := false }

/-- A root (holding a resolved disposable singleton) with one child scope
holding its own resolved disposable scoped instance. -/
def W6 : World :=
  { nodes :=
      [{ services := [(("r"), entry facD ("r") Scope.singleton (some vR))], scopes := [1]
         parent := none, isDisposed := false },
       { services := [(("c"), entry facD ("c") Scope.scoped (some vC))], scopes := []
         parent := some 0, isDisposed := false }]
    nextId := 22, events := [] }

end Ex

/-! Helper lemmas about the association-list primitives. -/

theorem lookupEntry_setEntry_self (l : List (String × ServiceEntry)) (t : String) (e : ServiceEntry) :
    lookupEntry (setEntry l t e) t = some e := by
  induction l with
  | nil => simp [setEntry, lookupEntry]
  | cons hd tl ih =>
    obtain ⟨s, e0⟩ := hd
    by_cases h : s = t
    · simp [setEntry, h, lookupEntry]
    · simp [setEntry, h, lookupEntry, ih]

theorem lookupEntry_setEntry_ne (l : List (String × ServiceEntry)) (t s : String) (e : ServiceEntry)
    (h : s ≠ t) : lookupEntry (setEntry l t e) s = lookupEntry l s := by
  induction l with
  | nil => simp [setEntry, lookupEntry, h, Ne.symm h]
  | cons hd tl ih =>
    obtain ⟨k, e0⟩ := hd
    by_cases hk : k = t
    · subst hk
      simp [setEntry, lookupEntry, h, Ne.symm h]
    · by_cases hs : k = s
      · simp [setEntry, hk, lookupEntry, hs, h, Ne.symm h]
      · simp [setEntry, hk, lookupEntry, hs, ih]

/-- Unfolding lemma: a resolution whose token is found in the current
(non-disposed) node dispatches to `resolveEntry`, for any fuel. -/
theorem resolve_found (fuel : Nat) (W : World) (n : Nat) (nd : Node) (t : String) (e : ServiceEntry)
    (hnode : W.node? n = some nd)
    (hdisp : nd.isDisposed = false)
    (hlook : lookupEntry nd.services t = some e) :
    resolve (fuel + 1) n t W = resolveEntry n nd t e W := by
  simp only [resolve, hnode, validateNotDisposed, hdisp, Bool.false_eq_true, if_false,
    tryCustomResolve, hlook]

/-- A resolution that finds a singleton entry with a truthy cached
instance in the current non-disposed node returns that instance and
leaves the world unchanged. -/
theorem resolve_singleton_cached (g : Nat) (W : World) (n : Nat) (nd : Node) (t : String)
    (e : ServiceEntry) (v : Value)
    (hnode : W.node? n = some nd)
    (hdisp : nd.isDisposed = false)
    (hlook : lookupEntry nd.services t = some e)
    (hscope : e.metadata.scope = Scope.singleton)
    (hinst : e.inst = some v)
    (hv : v.truthy = true) :
    resolve (g + 1) n t W = (Except.ok v, W) := by
  rw [resolve_found g W n nd t e hnode hdisp hlook]
  simp only [resolveEntry, hscope, resolveSingleton, truthyCached, hinst, hv, if_true]

/-- C1.  The claim asserts single-flight behavior: concurrent resolutions
of a singleton (or node-local scoped) token all return the identical
instance with at most one factory invocation.  The source's
check-then-assign pattern (`if (!entry.instance)` followed by
`entry.instance = await this.createInstance(...)`) suspends between the
check and the write, so the interleaving in which both calls pass the
check before either completes invokes the factory twice and hands the
two callers two distinct instances.  This theorem evaluates that
interleaving: after the schedule `task 0 check, task 1 check, task 0
resume, task 1 resume` the run counter is 2 and the tasks finish with
distinct values. -/
theorem resolveSingleton_race_two_invocations :
    SingleFlight.runSched [false, true, false, true] SingleFlight.init =
      { t0 := SingleFlight.TaskState.done 0, t1 := SingleFlight.TaskState.done 1
        st := { inst := some 1, nextId := 2, runs := 2 } } ∧
    SingleFlight.TaskState.done 0 ≠ SingleFlight.TaskState.done 1 ∧
    (2 : Nat) ≠ 1 := by
  refine ⟨by decide, by decide, by decide⟩

/-- C2 counterexample.  The claim quantifies over every factory result
value, but the cache guard `if (!entry.instance)` uses JavaScript
truthiness: a singleton factory returning a falsy value (for example
`0`) is re-invoked by every resolution, and the second resolution
returns a different instance instead of the cached one.  Evaluated on a
concrete root container: two sequential resolutions produce two factory
runs and two distinct instances. -/
theorem singleton_falsy_result_reinvoked :
    ∃ v1 v2 : Value,
      (resolve 1 0 ("a") Ex.W2f).1 = Except.ok v1 ∧
      (resolve 1 0 ("a") (resolve 1 0 ("a") Ex.W2f).2).1 = Except.ok v2 ∧
      v1 ≠ v2 ∧
      (resolve 1 0 ("a") (resolve 1 0 ("a") Ex.W2f).2).2.events =
        [Event.factoryRun ("a") Ex.facF.fid, Event.factoryRun ("a") Ex.facF.fid] := by
  exact ⟨{ vid := 0, truthy := false, disposable := false, disposeFails := false },
    { vid := 1, truthy := false, disposable := false, disposeFails := false },
    rfl, rfl, by decide, by decide⟩

/-- C2 (amended: the factory's result must be truthy, since the source
guards its cache with JavaScript truthiness).  For every node and token
registered there with singleton lifetime, an uncached entry whose
factory produces truthy values: the first resolution invokes the
factory exactly once (exactly one `factoryRun` event is appended) and
caches the fresh instance, and every later resolution returns that
cached instance with the world unchanged — hence the factory is never
invoked again. -/
theorem singleton_truthy_cached_after_first
    (W : World) (n : Nat) (nd : Node) (t : String) (e : ServiceEntry)
    (hnode : W.node? n = some nd)
    (hdisp : nd.isDisposed = false)
    (hlook : lookupEntry nd.services t = some e)
    (hscope : e.metadata.scope = Scope.singleton)
    (hinst : e.inst = none)
    (htruthy : e.factory.truthy = true)
    (fuel : Nat) :
    ∃ v W1,
      resolve (fuel + 1) n t W = (Except.ok v, W1) ∧
      v.vid = W.nextId ∧ v.truthy = true ∧
      W1.events = W.events ++ [Event.factoryRun t e.factory.fid] ∧
      ∀ g : Nat, resolve (g + 1) n t W1 = (Except.ok v, W1) := by
  have hlen : n < W.nodes.length := (List.getElem?_eq_some.mp hnode).1
  have hnodeG : W.nodes[n]? = some nd := hnode
  rw [resolve_found fuel W n nd t e hnode hdisp hlook]
  simp only [resolveEntry, hscope, resolveSingleton, truthyCached, hinst, createInstance,
    cacheInstance, World.modifyNode, hnodeG, hlook]
  refine ⟨_, _, rfl, rfl, htruthy, rfl, ?_⟩
  intro g
  exact resolve_singleton_cached g _ n _ t _ _ (by exact List.getElem?_set_eq_of_lt _ hlen)
    (by exact hdisp) (by exact lookupEntry_setEntry_self _ _ _) (by exact hscope) (by rfl)
    (by exact htruthy)

/-- C2 witness: the amended theorem evaluated on a concrete root
container with a truthy singleton factory. -/
theorem singleton_truthy_cached_after_first_witness :
    ∃ v W1,
      resolve 1 0 ("a") Ex.W2 = (Except.ok v, W1) ∧
      v.vid = Ex.W2.nextId ∧ v.truthy = true ∧
      W1.events = Ex.W2.events ++ [Event.factoryRun ("a") Ex.facT.fid] ∧
      ∀ g : Nat, resolve (g + 1) 0 ("a") W1 = (Except.ok v, W1) :=
  singleton_truthy_cached_after_first Ex.W2 0 _ ("a") _ rfl rfl rfl rfl rfl rfl 0

/-- A resolution that finds an uncached entry on the caching path
(singleton, or scoped with a parent) in the current non-disposed node:
the factory runs once, producing `freshValue`, which is cached on this
node's own entry; the identifier counter advances and exactly one
`factoryRun` event is appended. -/
theorem resolve_uncached_caching (fuel : Nat) (W : World) (n : Nat) (nd : Node) (t : String)
    (e : ServiceEntry)
    (hnode : W.node? n = some nd)
    (hdisp : nd.isDisposed = false)
    (hlook : lookupEntry nd.services t = some e)
    (hinst : e.inst = none)
    (hpath : e.metadata.scope = Scope.singleton ∨
      (e.metadata.scope = Scope.scoped ∧ nd.parent.isSome = true)) :
    ∃ W1, resolve (fuel + 1) n t W = (Except.ok (freshValue e.factory W), W1) ∧
      W1.nodes = W.nodes.set n
        { nd with services := (setEntry nd.services t
            { e with inst := some (freshValue e.factory W) }) } ∧
      W1.nextId = W.nextId + 1 ∧
      W1.events = W.events ++ [Event.factoryRun t e.factory.fid] := by
  have hnodeG : W.nodes[n]? = some nd := hnode
  rw [resolve_found fuel W n nd t e hnode hdisp hlook]
  rcases hpath with hs | ⟨hs, hq⟩
  · simp only [resolveEntry, hs, resolveSingleton, truthyCached, hinst, createInstance,
      cacheInstance, World.modifyNode, hnodeG, hlook, freshValue]
    exact ⟨_, rfl, rfl, rfl, rfl⟩
  · obtain ⟨q, hq⟩ := Option.isSome_iff_exists.mp hq
    simp only [resolveEntry, hs, resolveScoped, hq, truthyCached, hinst, createInstance,
      cacheInstance, World.modifyNode, hnodeG, hlook, freshValue]
    exact ⟨_, rfl, rfl, rfl, rfl⟩

/-- A resolution that finds a scoped entry with a truthy cached instance
in a non-disposed node that has a parent returns the cached instance
and leaves the world unchanged. -/
theorem resolve_scoped_cached (g : Nat) (W : World) (n : Nat) (nd : Node) (t : String)
    (e : ServiceEntry) (v : Value) (q : Nat)
    (hnode : W.node? n = some nd)
    (hdisp : nd.isDisposed = false)
    (hlook : lookupEntry nd.services t = some e)
    (hscope : e.metadata.scope = Scope.scoped)
    (hq : nd.parent = some q)
    (hinst : e.inst = some v)
    (hv : v.truthy = true) :
    resolve (g + 1) n t W = (Except.ok v, W) := by
  rw [resolve_found g W n nd t e hnode hdisp hlook]
  simp only [resolveEntry, hscope, resolveScoped, hq, truthyCached, hinst, hv, if_true]

/-- A resolution that finds an entry on the transient path (transient, or
scoped at the root) in the current non-disposed node: the factory runs
once and nothing is cached. -/
theorem resolve_transient_path (fuel : Nat) (W : World) (n : Nat) (nd : Node) (t : String)
    (e : ServiceEntry)
    (hnode : W.node? n = some nd)
    (hdisp : nd.isDisposed = false)
    (hlook : lookupEntry nd.services t = some e)
    (hpath : e.metadata.scope = Scope.transient ∨
      (e.metadata.scope = Scope.scoped ∧ nd.parent = none)) :
    resolve (fuel + 1) n t W =
      (Except.ok (freshValue e.factory W),
        { W with nextId := W.nextId + 1
                 events := W.events ++ [Event.factoryRun t e.factory.fid] }) := by
  rw [resolve_found fuel W n nd t e hnode hdisp hlook]
  rcases hpath with hs | ⟨hs, hq⟩
  · simp only [resolveEntry, hs, resolveTransient, createInstance, freshValue]
  · simp only [resolveEntry, hs, resolveScoped, hq, resolveTransient, createInstance, freshValue]

/-- C3 counterexample.  The claim says a scoped entry in a non-root node
is created once and repeated resolves return the same instance, but the
cache guard uses JavaScript truthiness: a scoped factory returning a
falsy value is re-invoked by every resolution on the same child scope.
Evaluated on a concrete root/child pair: two resolutions on the child
produce two factory runs and two distinct instances. -/
theorem scoped_falsy_result_reinvoked :
    ∃ v1 v2 : Value,
      (resolve 1 1 ("s") Ex.W3f).1 = Except.ok v1 ∧
      (resolve 1 1 ("s") (resolve 1 1 ("s") Ex.W3f).2).1 = Except.ok v2 ∧
      v1 ≠ v2 ∧
      (resolve 1 1 ("s") (resolve 1 1 ("s") Ex.W3f).2).2.events =
        [Event.factoryRun ("s") Ex.facF.fid, Event.factoryRun ("s") Ex.facF.fid] := by
  exact ⟨{ vid := 0, truthy := false, disposable := false, disposeFails := false },
    { vid := 1, truthy := false, disposable := false, disposeFails := false },
    rfl, rfl, by decide, by decide⟩

/-- C3 (amended: on the non-root caching path the factory's result must
be truthy, since the source guards the scoped cache with JavaScript
truthiness).  Part one: a scoped entry found in a node with a parent is
created once, cached on that node's own entry, and later resolutions on
the same node return the cached instance with the world unchanged.
Part two: a sibling scope holding its own copy of the entry resolves to
a distinct instance out of its own cache, leaving the first node's
cache intact.  Part three: a scoped entry found in the root (no parent)
invokes the factory afresh on every resolution and caches nothing,
exactly like transient. -/
theorem scoped_nonroot_caches_root_transient :
    (∀ (W : World) (n : Nat) (nd : Node) (t : String) (e : ServiceEntry) (q fuel : Nat),
      W.node? n = some nd → nd.isDisposed = false →
      lookupEntry nd.services t = some e → e.metadata.scope = Scope.scoped →
      nd.parent = some q → e.inst = none → e.factory.truthy = true →
      ∃ W1, resolve (fuel + 1) n t W = (Except.ok (freshValue e.factory W), W1) ∧
        W1.nodes = W.nodes.set n
          { nd with services := (setEntry nd.services t
              { e with inst := some (freshValue e.factory W) }) } ∧
        W1.events = W.events ++ [Event.factoryRun t e.factory.fid] ∧
        ∀ g : Nat, resolve (g + 1) n t W1 = (Except.ok (freshValue e.factory W), W1)) ∧
    (∀ (W : World) (n m : Nat) (nd ndm : Node) (t : String) (e em : ServiceEntry)
      (q qm fuel g : Nat),
      W.node? n = some nd → nd.isDisposed = false → lookupEntry nd.services t = some e →
      e.metadata.scope = Scope.scoped → nd.parent = some q → e.inst = none →
      m ≠ n → W.node? m = some ndm → ndm.isDisposed = false →
      lookupEntry ndm.services t = some em → em.metadata.scope = Scope.scoped →
      ndm.parent = some qm → em.inst = none →
      ∃ W1 v2 W2, resolve (fuel + 1) n t W = (Except.ok (freshValue e.factory W), W1) ∧
        resolve (g + 1) m t W1 = (Except.ok v2, W2) ∧
        v2.vid ≠ (freshValue e.factory W).vid ∧
        ∃ nd1 e1, W2.node? n = some nd1 ∧ lookupEntry nd1.services t = some e1 ∧
          e1.inst = some (freshValue e.factory W)) ∧
    (∀ (W : World) (n : Nat) (nd : Node) (t : String) (e : ServiceEntry) (fuel g : Nat),
      W.node? n = some nd → nd.isDisposed = false → lookupEntry nd.services t = some e →
      e.metadata.scope = Scope.scoped → nd.parent = none →
      ∃ v1 W1 v2 W2, resolve (fuel + 1) n t W = (Except.ok v1, W1) ∧
        W1.nodes = W.nodes ∧ W1.events = W.events ++ [Event.factoryRun t e.factory.fid] ∧
        resolve (g + 1) n t W1 = (Except.ok v2, W2) ∧ W2.nodes = W.nodes ∧
        W2.events = W.events ++ [Event.factoryRun t e.factory.fid, Event.factoryRun t e.factory.fid] ∧
        v1.vid ≠ v2.vid) := by
  refine ⟨?_, ?_, ?_⟩
  · intro W n nd t e q fuel hnode hdisp hlook hscope hq hinst htruthy
    obtain ⟨W1, h1, hn1, hx1, he1⟩ := resolve_uncached_caching fuel W n nd t e hnode hdisp hlook
      hinst (Or.inr ⟨hscope, by rw [hq]; rfl⟩)
    have hlen : n < W.nodes.length := (List.getElem?_eq_some.mp hnode).1
    refine ⟨W1, h1, hn1, he1, ?_⟩
    intro g
    have hn : W1.node? n = some
        { nd with services := (setEntry nd.services t
            { e with inst := some (freshValue e.factory W) }) } := by
      show W1.nodes[n]? = _
      rw [hn1]
      exact List.getElem?_set_eq_of_lt _ hlen
    exact resolve_scoped_cached g W1 n _ t _ _ q hn hdisp (lookupEntry_setEntry_self _ _ _)
      hscope hq rfl htruthy
  · intro W n m nd ndm t e em q qm fuel g hnode hdisp hlook hscope hq hinst hmn hnodem hdispm
      hlookm hscopem hqm hinstm
    obtain ⟨W1, h1, hn1, hx1, he1⟩ := resolve_uncached_caching fuel W n nd t e hnode hdisp hlook
      hinst (Or.inr ⟨hscope, by rw [hq]; rfl⟩)
    have hlen : n < W.nodes.length := (List.getElem?_eq_some.mp hnode).1
    have hm1 : W1.node? m = some ndm := by
      show W1.nodes[m]? = _
      rw [hn1, List.getElem?_set_ne (Ne.symm hmn)]
      exact hnodem
    obtain ⟨W2, h2, hn2, hx2, he2⟩ := resolve_uncached_caching g W1 m ndm t em hm1 hdispm hlookm
      hinstm (Or.inr ⟨hscopem, by rw [hqm]; rfl⟩)
    refine ⟨W1, freshValue em.factory W1, W2, h1, h2, ?_, ?_⟩
    · simp only [freshValue, hx1]
      omega
    · have hn : W2.node? n = some
          { nd with services := (setEntry nd.services t
              { e with inst := some (freshValue e.factory W) }) } := by
        show W2.nodes[n]? = _
        rw [hn2, List.getElem?_set_ne hmn, hn1]
        exact List.getElem?_set_eq_of_lt _ hlen
      exact ⟨_, _, hn, lookupEntry_setEntry_self _ _ _, rfl⟩
  · intro W n nd t e fuel g hnode hdisp hlook hscope hroot
    refine ⟨_, _, _, _,
      resolve_transient_path fuel W n nd t e hnode hdisp hlook (Or.inr ⟨hscope, hroot⟩),
      rfl, rfl,
      resolve_transient_path g _ n nd t e (by exact hnode) hdisp hlook (Or.inr ⟨hscope, hroot⟩),
      rfl, by simp, ?_⟩
    simp only [freshValue]
    omega

/-- C3 witness: the three parts of the amended theorem evaluated on a
concrete hierarchy (root 0 holding a scoped entry, children 1 and 2
holding their own copies). -/
theorem scoped_nonroot_caches_root_transient_witness :
    (∃ W1, resolve 1 1 ("s") Ex.W3 = (Except.ok (freshValue Ex.facT Ex.W3), W1) ∧
      W1.nodes = Ex.W3.nodes.set 1
        { (Ex.W3.nodes.get ⟨1, by decide⟩) with
            services := (setEntry (Ex.W3.nodes.get ⟨1, by decide⟩).services ("s")
              { (Ex.entry Ex.facT ("s") Scope.scoped none) with
                  inst := some (freshValue Ex.facT Ex.W3) }) } ∧
      W1.events = Ex.W3.events ++ [Event.factoryRun ("s") Ex.facT.fid] ∧
      ∀ g : Nat, resolve (g + 1) 1 ("s") W1 = (Except.ok (freshValue Ex.facT Ex.W3), W1)) ∧
    (∃ W1 v2 W2, resolve 1 1 ("s") Ex.W3 = (Except.ok (freshValue Ex.facT Ex.W3), W1) ∧
      resolve 1 2 ("s") W1 = (Except.ok v2, W2) ∧
      v2.vid ≠ (freshValue Ex.facT Ex.W3).vid ∧
      ∃ nd1 e1, W2.node? 1 = some nd1 ∧ lookupEntry nd1.services ("s") = some e1 ∧
        e1.inst = some (freshValue Ex.facT Ex.W3)) ∧
    (∃ v1 W1 v2 W2, resolve 1 0 ("s") Ex.W3 = (Except.ok v1, W1) ∧
      W1.nodes = Ex.W3.nodes ∧
      W1.events = Ex.W3.events ++ [Event.factoryRun ("s") Ex.facT.fid] ∧
      resolve 1 0 ("s") W1 = (Except.ok v2, W2) ∧ W2.nodes = Ex.W3.nodes ∧
      W2.events = Ex.W3.events ++
        [Event.factoryRun ("s") Ex.facT.fid, Event.factoryRun ("s") Ex.facT.fid] ∧
      v1.vid ≠ v2.vid) :=
  ⟨scoped_nonroot_caches_root_transient.1 Ex.W3 1 _ ("s") _ 0 0 rfl rfl rfl rfl rfl rfl rfl,
   scoped_nonroot_caches_root_transient.2.1 Ex.W3 1 2 _ _ ("s") _ _ 0 0 0 0 rfl rfl rfl rfl rfl
     rfl (by decide) rfl rfl rfl rfl rfl rfl,
   scoped_nonroot_caches_root_transient.2.2 Ex.W3 0 _ ("s") _ 0 0 rfl rfl rfl rfl rfl⟩

theorem lookupEntry_eq_none_of_not_mem (l : List (String × ServiceEntry)) (t : String)
    (h : t ∉ l.map Prod.fst) : lookupEntry l t = none := by
  induction l with
  | nil => rfl
  | cons hd tl ih =>
    obtain ⟨s, e⟩ := hd
    simp only [List.map_cons, List.mem_cons, not_or] at h
    simp only [lookupEntry]
    rw [if_neg (fun hst : s = t => h.1 hst.symm)]
    exact ih h.2

/-- Lookup characterization of the copy loop, generalized over the
accumulator (whose keys must be disjoint from the remaining source
keys). -/
theorem lookupEntry_copy_foldl (src : List (String × ServiceEntry))
    (acc : List (String × ServiceEntry)) (t : String)
    (hnd : (src.map Prod.fst).Nodup)
    (hdisj : ∀ s ∈ src.map Prod.fst, lookupEntry acc s = none) :
    lookupEntry
      (src.foldl
        (fun acc0 pr =>
          if shouldCopyToScope pr.2 then
            setEntry acc0 pr.1 { factory := pr.2.factory, metadata := pr.2.metadata, inst := none }
          else acc0)
        acc) t =
      match lookupEntry src t with
      | some e =>
        if shouldCopyToScope e then
          some { factory := e.factory, metadata := e.metadata, inst := none }
        else lookupEntry acc t
      | none => lookupEntry acc t := by
  induction src generalizing acc with
  | nil => simp [lookupEntry]
  | cons hd rest ih =>
    obtain ⟨s, e0⟩ := hd
    simp only [List.map_cons, List.nodup_cons] at hnd
    have hdisj' : ∀ x ∈ rest.map Prod.fst,
        lookupEntry
          (if shouldCopyToScope e0 then
            setEntry acc s { factory := e0.factory, metadata := e0.metadata, inst := none }
          else acc) x = none := by
      intro x hx
      have hxs : x ≠ s := fun hxs => hnd.1 (hxs ▸ hx)
      by_cases hc : shouldCopyToScope e0
      · simp only [hc, if_true]
        rw [lookupEntry_setEntry_ne _ _ _ _ hxs]
        exact hdisj x (List.mem_cons_of_mem _ hx)
      · simp only [hc, if_false]
        exact hdisj x (List.mem_cons_of_mem _ hx)
    have hstep := ih
      (if shouldCopyToScope e0 then
        setEntry acc s { factory := e0.factory, metadata := e0.metadata, inst := none }
      else acc) hnd.2 hdisj'
    simp only [List.foldl_cons]
    by_cases hts : s = t
    · subst hts
      have hrest : lookupEntry rest s = none :=
        lookupEntry_eq_none_of_not_mem rest s hnd.1
      rw [hstep, hrest]
      simp only [lookupEntry, if_pos rfl]
      by_cases hc : shouldCopyToScope e0
      · simp [hc, lookupEntry_setEntry_self]
      · simp [hc]
    · rw [hstep]
      have hacc : lookupEntry
          (if shouldCopyToScope e0 then
            setEntry acc s { factory := e0.factory, metadata := e0.metadata, inst := none }
          else acc) t = lookupEntry acc t := by
        by_cases hc : shouldCopyToScope e0
        · simp only [hc, if_true]
          exact lookupEntry_setEntry_ne _ _ _ _ (fun h => hts h.symm)
        · simp [hc]
      simp only [lookupEntry, if_neg hts, hacc]

/-- Lookup characterization of `copyServicesToScope` for a source map
with unique keys (an invariant of every reachable node): a token maps
in the copy to the uncached duplicate of its source entry when that
entry's scope is not singleton, and to nothing otherwise. -/
theorem lookupEntry_copyServicesToScope (src : List (String × ServiceEntry)) (t : String)
    (hnd : (src.map Prod.fst).Nodup) :
    lookupEntry (copyServicesToScope src) t =
      (lookupEntry src t).bind
        (fun e =>
          if e.metadata.scope = Scope.singleton then none
          else some { factory := e.factory, metadata := e.metadata, inst := none }) := by
  have h := lookupEntry_copy_foldl src [] t hnd (fun s _ => rfl)
  rw [copyServicesToScope, h]
  cases he : lookupEntry src t with
  | none => rfl
  | some e =>
    by_cases hc : e.metadata.scope = Scope.singleton
    · simp [shouldCopyToScope, hc, lookupEntry]
    · simp [shouldCopyToScope, hc]

/-- C8.  For every non-disposed node, `register` succeeds (even when the
token is already present: no duplicate error, last registration wins),
stores the entry built by `createServiceEntry` (whose scope defaults to
singleton when the metadata leaves it unset) under the token in this
node, leaves every other token of this node unchanged, and leaves every
other node (parent and children included) unchanged. -/
theorem register_replaces_locally_defaults_singleton
    (W : World) (n : Nat) (nd : Node)
    (hnode : W.node? n = some nd)
    (hdisp : nd.isDisposed = false)
    (t : String) (fac : Factory) (meta : Option MetadataArg) :
    ∃ W1 nd1, register n t fac meta W = (Except.ok (), W1) ∧
      W1.node? n = some nd1 ∧
      lookupEntry nd1.services t = some (createServiceEntry t fac meta) ∧
      ((meta.bind fun m => m.scope) = none →
        (createServiceEntry t fac meta).metadata.scope = Scope.singleton) ∧
      (∀ s, s ≠ t → lookupEntry nd1.services s = lookupEntry nd.services s) ∧
      (∀ m, m ≠ n → W1.node? m = W.node? m) := by
  have hnodeG : W.nodes[n]? = some nd := hnode
  have hlen : n < W.nodes.length := (List.getElem?_eq_some.mp hnode).1
  simp only [register, hnode, validateNotDisposed, hdisp, Bool.false_eq_true, if_false,
    World.modifyNode, hnodeG]
  refine ⟨_,
    { services := setEntry nd.services t (createServiceEntry t fac meta), scopes := nd.scopes
      parent := nd.parent, isDisposed := false },
    rfl, ?_, ?_, ?_, ?_, ?_⟩
  · exact List.getElem?_set_eq_of_lt _ hlen
  · exact lookupEntry_setEntry_self _ _ _
  · intro h
    simp [createServiceEntry, h]
  · intro s hs
    exact lookupEntry_setEntry_ne _ _ _ _ hs
  · intro m hm
    show _ = W.node? m
    simp only [World.node?]
    exact List.getElem?_set_ne (fun h => hm h.symm)

/-- C8 witness: registering token `s` (already present) on child scope 1
of the concrete hierarchy. -/
theorem register_replaces_locally_defaults_singleton_witness :
    ∃ W1 nd1, register 1 ("s") Ex.facF none Ex.W3 = (Except.ok (), W1) ∧
      W1.node? 1 = some nd1 ∧
      lookupEntry nd1.services ("s") = some (createServiceEntry ("s") Ex.facF none) ∧
      ((none.bind fun m : MetadataArg => m.scope) = none →
        (createServiceEntry ("s") Ex.facF none).metadata.scope = Scope.singleton) ∧
      (∀ s, s ≠ ("s") →
        lookupEntry nd1.services s =
          lookupEntry (Ex.W3.nodes.get ⟨1, by decide⟩).services s) ∧
      (∀ m, m ≠ 1 → W1.node? m = Ex.W3.node? m) :=
  register_replaces_locally_defaults_singleton Ex.W3 1 _ rfl rfl ("s") Ex.facF none

/-- C4.  For every non-disposed node (with the reachable-world invariant
that its service map has unique keys), `createScope` returns a fresh
child node whose parent is this node; the child's entry map contains
exactly the parent's entries whose scope is not singleton, each copied
entry sharing the parent entry's factory, carrying an equal duplicate
of its metadata, and with its instance unset even if the source entry
was already resolved; singleton entries are never copied.  The parent's
own services are unchanged and the child is recorded in its scopes. -/
theorem createScope_copies_exactly_non_singletons
    (W : World) (n : Nat) (nd : Node)
    (hnode : W.node? n = some nd)
    (hdisp : nd.isDisposed = false)
    (hkeys : (nd.services.map Prod.fst).Nodup) :
    ∃ W1 child, createScope n W = (Except.ok W.nodes.length, W1) ∧
      W1.node? W.nodes.length = some child ∧
      child.parent = some n ∧
      child.scopes = [] ∧
      child.isDisposed = false ∧
      (∀ t, lookupEntry child.services t =
        (lookupEntry nd.services t).bind
          (fun e =>
            if e.metadata.scope = Scope.singleton then none
            else some { factory := e.factory, metadata := e.metadata, inst := none })) ∧
      (∃ nd1, W1.node? n = some nd1 ∧ nd1.services = nd.services ∧
        nd1.scopes = nd.scopes ++ [W.nodes.length]) := by
  have hlen : n < W.nodes.length := (List.getElem?_eq_some.mp hnode).1
  simp only [createScope, hnode, validateNotDisposed, hdisp, Bool.false_eq_true, if_false]
  refine ⟨_,
    { services := copyServicesToScope nd.services, scopes := [], parent := some n
      isDisposed := false },
    rfl, ?_, rfl, rfl, rfl, ?_, ?_⟩
  · show ((W.nodes.set n _) ++ [_])[W.nodes.length]? = _
    rw [List.getElem?_append_right (by simp), List.length_set]
    simp
  · intro t
    exact lookupEntry_copyServicesToScope nd.services t hkeys
  · refine
      ⟨{ services := nd.services, scopes := nd.scopes ++ [W.nodes.length], parent := nd.parent
         isDisposed := false }, ?_, rfl, rfl⟩
    show ((W.nodes.set n _) ++ [_])[n]? = _
    rw [List.getElem?_append]
    simp only [List.length_set, hlen, if_true]
    exact List.getElem?_set_eq_of_lt _ hlen

/-- C4 witness: creating a scope of a root whose entries are a resolved
singleton, a transient and a resolved scoped entry. -/
theorem createScope_copies_exactly_non_singletons_witness :
    ∃ W1 child, createScope 0 Ex.W4 = (Except.ok Ex.W4.nodes.length, W1) ∧
      W1.node? Ex.W4.nodes.length = some child ∧
      child.parent = some 0 ∧
      child.scopes = [] ∧
      child.isDisposed = false ∧
      (∀ t, lookupEntry child.services t =
        (lookupEntry (Ex.W4.nodes.get ⟨0, by decide⟩).services t).bind
          (fun e =>
            if e.metadata.scope = Scope.singleton then none
            else some { factory := e.factory, metadata := e.metadata, inst := none })) ∧
      (∃ nd1, W1.node? 0 = some nd1 ∧
        nd1.services = (Ex.W4.nodes.get ⟨0, by decide⟩).services ∧
        nd1.scopes = (Ex.W4.nodes.get ⟨0, by decide⟩).scopes ++ [Ex.W4.nodes.length]) :=
  createScope_copies_exactly_non_singletons Ex.W4 0 _ rfl rfl (by decide)

/-- C5.  For every non-disposed node with no custom-resolution override
(the base class), when the token is absent from the node's own entries:
with a parent, the resolution is exactly the parent's resolution of the
same token; with no parent, the call fails with the not-registered
error, whose message names the token. -/
theorem resolve_delegates_to_parent_or_fails
    (W : World) (n : Nat) (nd : Node) (t : String)
    (hnode : W.node? n = some nd)
    (hdisp : nd.isDisposed = false)
    (habs : lookupEntry nd.services t = none) :
    (∀ p, nd.parent = some p → ∀ fuel : Nat, resolve (fuel + 1) n t W = resolve fuel p t W) ∧
    (nd.parent = none → ∀ fuel : Nat,
      resolve (fuel + 1) n t W =
        (Except.error (Err.containerError ("Service " ++ t ++ " not registered")), W) ∧
      ∃ pre suf, ("Service " ++ t ++ " not registered" : String) = pre ++ t ++ suf) := by
  constructor
  · intro p hp fuel
    simp only [resolve, hnode, validateNotDisposed, hdisp, Bool.false_eq_true, if_false,
      tryCustomResolve, habs, hp]
  · intro hp fuel
    refine ⟨?_, ("Service "), (" not registered"), rfl⟩
    simp only [resolve, hnode, validateNotDisposed, hdisp, Bool.false_eq_true, if_false,
      tryCustomResolve, habs, hp]

/-- C5 witness: token `y` is registered nowhere in the concrete
hierarchy; resolving it on child 1 delegates to root 0, and resolving
it on the root fails with the not-registered error naming `y`. -/
theorem resolve_delegates_to_parent_or_fails_witness :
    (resolve 2 1 ("y") Ex.W3 = resolve 1 0 ("y") Ex.W3) ∧
    (resolve 1 0 ("y") Ex.W3 =
      (Except.error (Err.containerError ("Service " ++ ("y") ++ " not registered")), Ex.W3) ∧
     ∃ pre suf, ("Service " ++ ("y") ++ " not registered" : String) = pre ++ ("y") ++ suf) :=
  ⟨(resolve_delegates_to_parent_or_fails Ex.W3 1 _ ("y") rfl rfl rfl).1 0 rfl 1,
   (resolve_delegates_to_parent_or_fails Ex.W3 0 _ ("y") rfl rfl rfl).2 rfl 0⟩

/-! Frame lemmas for the disposal cascade. -/

theorem wfScopes_lookup {W : World} {i : Nat} {nd : Node} {c : Nat}
    (h : wfScopes W) (hnd : W.nodes[i]? = some nd) (hc : c ∈ nd.scopes) : i < c := by
  obtain ⟨hl, he⟩ := List.getElem?_eq_some.mp hnd
  exact h i hl c (by rw [List.get_eq_getElem, he]; exact hc)

theorem wfScopes_set {W : World} {n : Nat} {nd1 : Node}
    (h : wfScopes W) (hnd1 : ∀ c ∈ nd1.scopes, n < c) :
    wfScopes { W with nodes := W.nodes.set n nd1 } := by
  intro i hi c hc
  simp only [List.length_set] at hi
  rw [List.get_eq_getElem] at hc
  by_cases hin : n = i
  · subst hin
    rw [List.getElem_set_self] at hc
    exact hnd1 c hc
  · rw [List.getElem_set_ne hin] at hc
    exact h i hi c (by rw [List.get_eq_getElem]; exact hc)

theorem disposeService_frame (n : Nat) (v : Value) (W : World) :
    ((disposeService n v W).2).nodes = W.nodes ∧
    ((disposeService n v W).2).nextId = W.nextId ∧
    ∃ tail, ((disposeService n v W).2).events = W.events ++ tail ∧
      ∀ ev ∈ tail, ∃ u, ev = Event.disp n u := by
  by_cases hd : v.disposable
  · by_cases hf : v.disposeFails
    · refine ⟨by simp [disposeService, hd, hf, World.emit], by simp [disposeService, hd, hf, World.emit],
        [Event.disp n v.vid], by simp [disposeService, hd, hf, World.emit], ?_⟩
      intro ev hev
      simp only [List.mem_singleton] at hev
      exact ⟨v.vid, hev⟩
    · refine ⟨by simp [disposeService, hd, hf, World.emit], by simp [disposeService, hd, hf, World.emit],
        [Event.disp n v.vid], by simp [disposeService, hd, hf, World.emit], ?_⟩
      intro ev hev
      simp only [List.mem_singleton] at hev
      exact ⟨v.vid, hev⟩
  · exact ⟨by simp [disposeService, hd], by simp [disposeService, hd], [], by simp [disposeService, hd], by simp⟩

theorem disposeEntryList_frame (n : Nat) :
    ∀ (l : List (String × ServiceEntry)) (W : World),
      ((disposeEntryList n l W).2).nodes = W.nodes ∧
      ((disposeEntryList n l W).2).nextId = W.nextId ∧
      ∃ tail, ((disposeEntryList n l W).2).events = W.events ++ tail ∧
        ∀ ev ∈ tail, ∃ u, ev = Event.disp n u := by
  intro l
  induction l with
  | nil => intro W; exact ⟨rfl, rfl, [], by simp [disposeEntryList], by simp⟩
  | cons pr rest ih =>
    intro W
    cases hinst : pr.2.inst with
    | none => simpa [disposeEntryList, hinst] using ih W
    | some v =>
      by_cases ht : v.truthy
      · obtain ⟨hn1, hx1, tail1, he1, htag1⟩ := disposeService_frame n v W
        cases hds : disposeService n v W with
        | mk r1 W1 =>
          rw [hds] at hn1 hx1 he1
          dsimp only at hn1 hx1 he1
          cases r1 with
          | ok u =>
            obtain ⟨hn2, hx2, tail2, he2, htag2⟩ := ih W1
            refine ⟨?_, ?_, tail1 ++ tail2, ?_, ?_⟩
            · simp only [disposeEntryList, hinst, ht, if_true, hds]
              rw [hn2, hn1]
            · simp only [disposeEntryList, hinst, ht, if_true, hds]
              rw [hx2, hx1]
            · simp only [disposeEntryList, hinst, ht, if_true, hds]
              rw [he2, he1, List.append_assoc]
            · intro ev hev
              rcases List.mem_append.mp hev with h1 | h2
              · exact htag1 ev h1
              · exact htag2 ev h2
          | error e =>
            refine ⟨?_, ?_, tail1, ?_, htag1⟩
            · simp only [disposeEntryList, hinst, ht, if_true, hds, hn1]
            · simp only [disposeEntryList, hinst, ht, if_true, hds, hx1]
            · simp only [disposeEntryList, hinst, ht, if_true, hds, he1]
      · simpa [disposeEntryList, hinst, ht] using ih W

theorem disposeEntryList_ok_events (n : Nat) :
    ∀ (l : List (String × ServiceEntry)) (W W' : World) (u : Unit),
      disposeEntryList n l W = (Except.ok u, W') →
      W'.nodes = W.nodes ∧ W'.nextId = W.nextId ∧
      W'.events = W.events ++ ownDisposeEvents n l := by
  intro l
  induction l with
  | nil =>
    intro W W' u h
    simp only [disposeEntryList, Prod.mk.injEq] at h
    simp [← h.2, ownDisposeEvents]
  | cons pr rest ih =>
    intro W W' u h
    cases hinst : pr.2.inst with
    | none =>
      rw [disposeEntryList, hinst] at h
      have := ih W W' u h
      simpa [ownDisposeEvents, hinst] using this
    | some v =>
      by_cases ht : v.truthy
      · rw [disposeEntryList, hinst] at h
        simp only [ht, if_true] at h
        by_cases hd : v.disposable
        · by_cases hf : v.disposeFails
          · simp [disposeService, hd, hf] at h
          · simp only [disposeService, hd, hf, if_true, if_false] at h
            have := ih _ W' u h
            refine ⟨by simpa [World.emit] using this.1, by simpa [World.emit] using this.2.1, ?_⟩
            rw [this.2.2]
            simp [World.emit, ownDisposeEvents, hinst, ht, hd]
        · simp only [disposeService, hd, if_false] at h
          have := ih W W' u h
          simpa [ownDisposeEvents, hinst, ht, hd] using this
      · rw [disposeEntryList, hinst] at h
        simp only [ht, if_false] at h
        have := ih W W' u h
        simpa [ownDisposeEvents, hinst, ht] using this

/-- The frame lemma for the disposal cascade: every `dispose` call and
every child loop satisfies its invariant, by induction on fuel. -/
theorem dispose_frame :
    ∀ fuel : Nat,
      (∀ (n : Nat) (W : World) (r : Except Err Unit) (W' : World),
        dispose fuel n W = (r, W') → DisposeInv n W r W') ∧
      (∀ (l : List Nat) (W : World) (r : Except Err Unit) (W' : World),
        disposeLoop (dispose fuel) l W = (r, W') → LoopInv l W r W') := by
  intro fuel
  induction fuel with
  | zero =>
    constructor
    · intro n W r W' h
      simp only [dispose] at h
      injection h with h1 h2
      subst h2
      refine ⟨rfl, ?_, ?_, ?_⟩
      · intro i ndi ndi' hi hi' hdd
        rw [hi] at hi'
        cases hi'
        exact hdd
      · intro hwf
        exact ⟨hwf, fun i _ => rfl, [], by simp, by simp⟩
      · intro hok
        rw [← h1] at hok
        exact Except.noConfusion hok
    · intro l W r W' h
      cases l with
      | nil =>
        simp only [disposeLoop] at h
        injection h with h1 h2
        subst h2
        refine ⟨rfl, ?_, ?_, ?_⟩
        · intro i ndi ndi' hi hi' hdd
          rw [hi] at hi'
          cases hi'
          exact hdd
        · intro hwf
          exact ⟨hwf, fun i _ => rfl, [], by simp, by simp⟩
        · intro _ c hc
          exact absurd hc (List.not_mem_nil c)
      | cons c rest =>
        simp only [disposeLoop, dispose] at h
        injection h with h1 h2
        subst h2
        refine ⟨rfl, ?_, ?_, ?_⟩
        · intro i ndi ndi' hi hi' hdd
          rw [hi] at hi'
          cases hi'
          exact hdd
        · intro hwf
          exact ⟨hwf, fun i _ => rfl, [], by simp, by simp⟩
        · intro hok
          rw [← h1] at hok
          exact Except.noConfusion hok
  | succ f ih =>
    obtain ⟨ihD, ihL⟩ := ih
    have hP : ∀ (n : Nat) (W : World) (r : Except Err Unit) (W' : World),
        dispose (f + 1) n W = (r, W') → DisposeInv n W r W' := by
      intro n W r W' h
      simp only [dispose] at h
      cases hnd : W.node? n with
      | none =>
        simp only [hnd] at h
        injection h with h1 h2
        subst h2
        refine ⟨rfl, ?_, ?_, ?_⟩
        · intro i ndi ndi' hi hi' hdd
          rw [hi] at hi'
          cases hi'
          exact hdd
        · intro hwf
          exact ⟨hwf, fun i _ => rfl, [], by simp, by simp⟩
        · intro hok
          rw [← h1] at hok
          exact Except.noConfusion hok
      | some nd =>
        have hndG : W.nodes[n]? = some nd := hnd
        have hlen : n < W.nodes.length := (List.getElem?_eq_some.mp hndG).1
        simp only [hnd] at h
        cases hd : nd.isDisposed with
        | true =>
          rw [if_pos hd] at h
          injection h with h1 h2
          subst h2
          refine ⟨rfl, ?_, ?_, ?_⟩
          · intro i ndi ndi' hi hi' hdd
            rw [hi] at hi'
            cases hi'
            exact hdd
          · intro hwf
            exact ⟨hwf, fun i _ => rfl, [], by simp, by simp⟩
          · intro _
            exact ⟨nd, hndG, hd⟩
        | false =>
          rw [if_neg (by simp [hd])] at h
          cases hloop : disposeLoop (dispose f) nd.scopes W with
          | mk r1 W1 =>
          rw [hloop] at h
          obtain ⟨Llen, Lmono, Lwf, _⟩ := ihL nd.scopes W r1 W1 hloop
          cases r1 with
          | error e =>
            dsimp only at h
            injection h with h1 h2
            subst h2
            refine ⟨Llen, Lmono, ?_, ?_⟩
            · intro hwf
              have hchild : ∀ c ∈ nd.scopes, n < c := fun c hc => wfScopes_lookup hwf hndG hc
              obtain ⟨Lwf', Lframe, tail, Lev, Ltags⟩ := Lwf hwf
              refine ⟨Lwf', ?_, tail, Lev, ?_⟩
              · intro i hi
                exact Lframe i (fun c hc => lt_trans hi (hchild c hc))
              · intro ev hev
                obtain ⟨j, u, hju, c, hc, hcj⟩ := Ltags ev hev
                exact ⟨j, u, hju, le_of_lt (lt_of_lt_of_le (hchild c hc) hcj)⟩
            · intro hok
              rw [← h1] at hok
              exact Except.noConfusion hok
          | ok u1 =>
            dsimp only at h
            have hn1 : n < W1.nodes.length := Llen ▸ hlen
            have hnd1 : W1.nodes[n]? = some (W1.nodes.get ⟨n, hn1⟩) := List.getElem?_eq_getElem hn1
            have hW2 : W1.modifyNode n (fun nd0 => { nd0 with scopes := [] }) =
                { W1 with nodes := W1.nodes.set n { W1.nodes.get ⟨n, hn1⟩ with scopes := [] } } := by
              simp only [World.modifyNode, hnd1]
            rw [hW2] at h
            have hnd2 : ({ W1 with
                nodes := W1.nodes.set n { W1.nodes.get ⟨n, hn1⟩ with scopes := [] } } : World).node? n =
                some { W1.nodes.get ⟨n, hn1⟩ with scopes := [] } := by
              show (W1.nodes.set n _)[n]? = _
              exact List.getElem?_set_eq_of_lt _ hn1
            rw [disposeServices, hnd2] at h
            dsimp only at h
            cases hdse : disposeEntryList n (W1.nodes.get ⟨n, hn1⟩).services
                { W1 with nodes := W1.nodes.set n { W1.nodes.get ⟨n, hn1⟩ with scopes := [] } } with
            | mk r2 W3 =>
            rw [hdse] at h
            cases r2 with
            | error e =>
              dsimp only at h
              injection h with h1 h2
              subst h2
              obtain ⟨E3n, E3x, tail3, E3ev, E3tags⟩ :=
                disposeEntryList_frame n (W1.nodes.get ⟨n, hn1⟩).services
                  { W1 with nodes := W1.nodes.set n { W1.nodes.get ⟨n, hn1⟩ with scopes := [] } }
              rw [hdse] at E3n E3x E3ev
              dsimp only at E3n E3x E3ev
              refine ⟨?_, ?_, ?_, ?_⟩
              · rw [E3n]
                simp [Llen]
              · intro i ndi ndi' hi hi' hdd
                by_cases hin : i = n
                · subst hin
                  rw [hndG] at hi
                  cases hi
                  rw [hd] at hdd
                  exact absurd hdd (by simp)
                · rw [E3n, List.getElem?_set_ne (fun hh => hin hh.symm)] at hi'
                  have hisome : W1.nodes[i]? = some ndi' := hi'
                  exact Lmono i ndi ndi' hi hisome hdd
              · intro hwf
                have hchild : ∀ c ∈ nd.scopes, n < c := fun c hc => wfScopes_lookup hwf hndG hc
                obtain ⟨Lwf', Lframe, tail, Lev, Ltags⟩ := Lwf hwf
                refine ⟨?_, ?_, tail ++ tail3, ?_, ?_⟩
                · show scopesWellFormed W3.nodes
                  rw [E3n]
                  exact wfScopes_set Lwf' (by simp)
                · intro i hi
                  rw [E3n, List.getElem?_set_ne (fun hh => (Nat.ne_of_lt hi) hh.symm)]
                  exact Lframe i (fun c hc => lt_trans hi (hchild c hc))
                · rw [E3ev, Lev, List.append_assoc]
                · intro ev hev
                  rcases List.mem_append.mp hev with h1' | h2'
                  · obtain ⟨j, u, hju, c, hc, hcj⟩ := Ltags ev h1'
                    exact ⟨j, u, hju, le_of_lt (lt_of_lt_of_le (hchild c hc) hcj)⟩
                  · obtain ⟨u, hu⟩ := E3tags ev h2'
                    exact ⟨n, u, hu, le_refl n⟩
              · intro hok
                rw [← h1] at hok
                exact Except.noConfusion hok
            | ok u2 =>
              dsimp only at h
              obtain ⟨E3n, E3x, E3ev⟩ :=
                disposeEntryList_ok_events n (W1.nodes.get ⟨n, hn1⟩).services
                  { W1 with nodes := W1.nodes.set n { W1.nodes.get ⟨n, hn1⟩ with scopes := [] } }
                  W3 u2 hdse
              dsimp only at E3n E3ev
              have hnd3 : W3.nodes[n]? = some { W1.nodes.get ⟨n, hn1⟩ with scopes := [] } := by
                rw [E3n]
                exact List.getElem?_set_eq_of_lt _ hn1
              have hW4 : W3.modifyNode n
                  (fun nd0 => { nd0 with services := [], isDisposed := true }) =
                  { W3 with nodes := (W3.nodes.set n
                    { services := [], scopes := [], parent := (W1.nodes.get ⟨n, hn1⟩).parent
                      isDisposed := true }) } := by
                simp only [World.modifyNode, hnd3]
              rw [hW4] at h
              injection h with h1 h2
              subst h2
              refine ⟨?_, ?_, ?_, ?_⟩
              · rw [List.length_set, E3n]
                simp [Llen]
              · intro i ndi ndi' hi hi' hdd
                by_cases hin : i = n
                · subst hin
                  rw [List.getElem?_set_eq_of_lt _ (by rw [E3n]; simpa [Llen] using hlen)] at hi'
                  cases hi'
                  rfl
                · rw [List.getElem?_set_ne (fun hh => hin hh.symm), E3n,
                    List.getElem?_set_ne (fun hh => hin hh.symm)] at hi'
                  exact Lmono i ndi ndi' hi hi' hdd
              · intro hwf
                have hchild : ∀ c ∈ nd.scopes, n < c := fun c hc => wfScopes_lookup hwf hndG hc
                obtain ⟨Lwf', Lframe, tail, Lev, Ltags⟩ := Lwf hwf
                refine ⟨?_, ?_,
                  tail ++ ownDisposeEvents n (W1.nodes.get ⟨n, hn1⟩).services, ?_, ?_⟩
                · show scopesWellFormed (W3.nodes.set n _)
                  rw [E3n, List.set_set]
                  exact wfScopes_set Lwf' (by simp)
                · intro i hi
                  rw [List.getElem?_set_ne (fun hh => (Nat.ne_of_lt hi) hh.symm), E3n,
                    List.getElem?_set_ne (fun hh => (Nat.ne_of_lt hi) hh.symm)]
                  exact Lframe i (fun c hc => lt_trans hi (hchild c hc))
                · show W3.events = _
                  rw [E3ev, Lev, List.append_assoc]
                · intro ev hev
                  rcases List.mem_append.mp hev with h1' | h2'
                  · obtain ⟨j, u, hju, c, hc, hcj⟩ := Ltags ev h1'
                    exact ⟨j, u, hju, le_of_lt (lt_of_lt_of_le (hchild c hc) hcj)⟩
                  · obtain ⟨pr, _, hpr⟩ := List.mem_filterMap.mp h2'
                    cases hprinst : pr.2.inst with
                    | none =>
                      rw [hprinst] at hpr
                      exact Option.noConfusion hpr
                    | some v =>
                      rw [hprinst] at hpr
                      dsimp only at hpr
                      by_cases htd : (v.truthy && v.disposable) = true
                      · rw [if_pos htd] at hpr
                        obtain rfl : Event.disp n v.vid = ev := Option.some.inj hpr
                        exact ⟨n, v.vid, rfl, le_refl n⟩
                      · rw [if_neg htd] at hpr
                        exact Option.noConfusion hpr
              · intro _
                refine ⟨_, List.getElem?_set_eq_of_lt _ (by rw [E3n]; simpa [Llen] using hlen), rfl⟩
    have hQ : ∀ (l : List Nat) (W : World) (r : Except Err Unit) (W' : World),
        disposeLoop (dispose (f + 1)) l W = (r, W') → LoopInv l W r W' := by
      intro l
      induction l with
      | nil =>
        intro W r W' h
        simp only [disposeLoop] at h
        injection h with h1 h2
        subst h2
        refine ⟨rfl, ?_, ?_, ?_⟩
        · intro i ndi ndi' hi hi' hdd
          rw [hi] at hi'
          cases hi'
          exact hdd
        · intro hwf
          exact ⟨hwf, fun i _ => rfl, [], by simp, by simp⟩
        · intro _ c hc
          exact absurd hc (List.not_mem_nil c)
      | cons c rest ihrest =>
        intro W r W' h
        simp only [disposeLoop] at h
        cases hd1 : dispose (f + 1) c W with
        | mk r1 W1 =>
        rw [hd1] at h
        obtain ⟨Dlen, Dmono, Dwf, Dok⟩ := hP c W r1 W1 hd1
        cases r1 with
        | error e =>
          dsimp only at h
          injection h with h1 h2
          subst h2
          refine ⟨Dlen, Dmono, ?_, ?_⟩
          · intro hwf
            obtain ⟨Dwf', Dframe, tail, Dev, Dtags⟩ := Dwf hwf
            refine ⟨Dwf', ?_, tail, Dev, ?_⟩
            · intro i hi
              exact Dframe i (hi c (List.mem_cons_self c rest))
            · intro ev hev
              obtain ⟨j, u, hju, hcj⟩ := Dtags ev hev
              exact ⟨j, u, hju, c, List.mem_cons_self c rest, hcj⟩
          · intro hok
            rw [← h1] at hok
            exact Except.noConfusion hok
        | ok u =>
          dsimp only at h
          obtain ⟨Rlen, Rmono, Rwf, Rok⟩ := ihrest W1 r W' h
          refine ⟨Rlen.trans Dlen, ?_, ?_, ?_⟩
          · intro i ndi ndi' hi hi' hdd
            have hilt : i < W1.nodes.length := by
              rw [Dlen]
              exact (List.getElem?_eq_some.mp hi).1
            have hi1 : W1.nodes[i]? = some (W1.nodes.get ⟨i, hilt⟩) := List.getElem?_eq_getElem hilt
            exact Rmono i _ ndi' hi1 hi' (Dmono i ndi _ hi hi1 hdd)
          · intro hwf
            obtain ⟨Dwf', Dframe, tail1, Dev, Dtags⟩ := Dwf hwf
            obtain ⟨Rwf', Rframe, tail2, Rev, Rtags⟩ := Rwf Dwf'
            refine ⟨Rwf', ?_, tail1 ++ tail2, ?_, ?_⟩
            · intro i hi
              rw [Rframe i (fun c' hc' => hi c' (List.mem_cons_of_mem c hc'))]
              exact Dframe i (hi c (List.mem_cons_self c rest))
            · rw [Rev, Dev, List.append_assoc]
            · intro ev hev
              rcases List.mem_append.mp hev with h1' | h2'
              · obtain ⟨j, u', hju, hcj⟩ := Dtags ev h1'
                exact ⟨j, u', hju, c, List.mem_cons_self c rest, hcj⟩
              · obtain ⟨j, u', hju, c', hc', hcj⟩ := Rtags ev h2'
                exact ⟨j, u', hju, c', List.mem_cons_of_mem c hc', hcj⟩
          · intro hok c' hc'
            rcases List.mem_cons.mp hc' with hc1 | hc2
            · subst hc1
              cases u
              obtain ⟨ndc, hndc, hndcd⟩ := Dok rfl
              have hclt : c' < W'.nodes.length := by
                rw [Rlen]
                exact (List.getElem?_eq_some.mp hndc).1
              have hc1' : W'.nodes[c']? = some (W'.nodes.get ⟨c', hclt⟩) := List.getElem?_eq_getElem hclt
              exact ⟨_, hc1', Rmono c' ndc _ hndc hc1' hndcd⟩
            · exact Rok hok c' hc2
    exact ⟨hP, hQ⟩

/-- C7.  After a completed `dispose()` on a node, `register`, `resolve`
and `createScope` on that node all fail with the disposed error (whose
message names the operation) and leave the world unchanged: each throws
from `validateNotDisposed` before performing any mutation. -/
theorem post_disposal_operations_fail
    (fuel n : Nat) (W0 W : World)
    (h : dispose fuel n W0 = (Except.ok (), W)) :
    (∀ (t : String) (fac : Factory) (meta : Option MetadataArg),
      register n t fac meta W =
        (Except.error (Err.containerError ("Cannot register on disposed container")), W)) ∧
    (∀ (g : Nat) (t : String),
      resolve (g + 1) n t W =
        (Except.error (Err.containerError ("Cannot resolve on disposed container")), W)) ∧
    createScope n W =
      (Except.error (Err.containerError ("Cannot createScope on disposed container")), W) := by
  obtain ⟨nd', hnd', hdd⟩ := ((dispose_frame fuel).1 n W0 (Except.ok ()) W h).2.2.2 rfl
  have hnode : W.node? n = some nd' := hnd'
  refine ⟨?_, ?_, ?_⟩
  · intro t fac meta
    simp only [register, hnode, validateNotDisposed, hdd, if_true]
    rfl
  · intro g t
    simp only [resolve, hnode, validateNotDisposed, hdd, if_true]
    rfl
  · simp only [createScope, hnode, validateNotDisposed, hdd, if_true]
    rfl

/-- C7 witness: a concrete root with one cached disposable instance is
disposed, then each of the three operations fails on it. -/
theorem post_disposal_operations_fail_witness :
    (∀ (t : String) (fac : Factory) (meta : Option MetadataArg),
      register 0 t fac meta (dispose 1 0 Ex.W7).2 =
        (Except.error (Err.containerError ("Cannot register on disposed container")),
          (dispose 1 0 Ex.W7).2)) ∧
    (∀ (g : Nat) (t : String),
      resolve (g + 1) 0 t (dispose 1 0 Ex.W7).2 =
        (Except.error (Err.containerError ("Cannot resolve on disposed container")),
          (dispose 1 0 Ex.W7).2)) ∧
    createScope 0 (dispose 1 0 Ex.W7).2 =
      (Except.error (Err.containerError ("Cannot createScope on disposed container")),
        (dispose 1 0 Ex.W7).2) :=
  post_disposal_operations_fail 1 0 Ex.W7 (dispose 1 0 Ex.W7).2 rfl

/-- C9.  The claim says a failing instance disposal never leaves sibling
instances undisposed.  The source's `disposeServices` loop awaits each
`disposeService` with no try/catch, so the first throwing `dispose()`
propagates immediately and the remaining instances are never attempted.
Evaluated on a root holding two cached disposable instances whose first
disposal throws: the call fails with that instance's error, the trace
shows only the first disposal attempt, the second instance is still
cached, and the node is not even marked disposed. -/
theorem dispose_first_failure_skips_remaining :
    (dispose 1 0 Ex.W9).1 = Except.error (Err.instanceFailure 10) ∧
    (dispose 1 0 Ex.W9).2.events = [Event.disp 0 10] ∧
    Event.disp 0 11 ∉ (dispose 1 0 Ex.W9).2.events ∧
    ∃ nd, (dispose 1 0 Ex.W9).2.node? 0 = some nd ∧ nd.isDisposed = false ∧
      ∃ e, lookupEntry nd.services ("b") = some e ∧ e.inst = some Ex.vD2 := by
  refine ⟨rfl, rfl, by decide, _, rfl, rfl, _, rfl, rfl⟩

/-- The event trace of one successful `dispose` on a non-disposed node in
a well-formed hierarchy: first the events of the recursive child
disposals (all of them disposals of strictly-descendant nodes), then
exactly the disposals of this node's own cached instances; afterwards
every child scope is marked disposed. -/
theorem dispose_ok_trace
    (f n : Nat) (W W2 : World) (nd : Node)
    (hwf : wfScopes W)
    (hnd : W.node? n = some nd)
    (hd : nd.isDisposed = false)
    (h : dispose (f + 1) n W = (Except.ok (), W2)) :
    ∃ childTail, W2.events = W.events ++ childTail ++ ownDisposeEvents n nd.services ∧
      (∀ ev ∈ childTail, ∃ j u, ev = Event.disp j u ∧ n < j) ∧
      (∀ c ∈ nd.scopes, ∃ ndc, W2.node? c = some ndc ∧ ndc.isDisposed = true) := by
  have hndG : W.nodes[n]? = some nd := hnd
  have hlen : n < W.nodes.length := (List.getElem?_eq_some.mp hndG).1
  have hchild : ∀ c ∈ nd.scopes, n < c := fun c hc => wfScopes_lookup hwf hndG hc
  simp only [dispose, hnd] at h
  rw [if_neg (by simp [hd])] at h
  cases hloop : disposeLoop (dispose f) nd.scopes W with
  | mk r1 W1 =>
  rw [hloop] at h
  obtain ⟨Llen, _, Lwf, Lok⟩ := (dispose_frame f).2 nd.scopes W r1 W1 hloop
  obtain ⟨Lwf', Lframe, tail1, Lev, Ltags⟩ := Lwf hwf
  cases r1 with
  | error e =>
    dsimp only at h
    injection h with h1 h2
    exact Except.noConfusion h1
  | ok u1 =>
    dsimp only at h
    cases u1
    have hn1 : n < W1.nodes.length := Llen ▸ hlen
    have hnd1 : W1.nodes[n]? = some nd := by
      rw [Lframe n (fun c hc => hchild c hc)]
      exact hndG
    have hW2 : W1.modifyNode n (fun nd0 => { nd0 with scopes := [] }) =
        { W1 with nodes := W1.nodes.set n { nd with scopes := [] } } := by
      simp only [World.modifyNode, hnd1]
    rw [hW2] at h
    have hnd2 : ({ W1 with nodes := W1.nodes.set n { nd with scopes := [] } } : World).node? n =
        some { nd with scopes := [] } := by
      show (W1.nodes.set n _)[n]? = _
      exact List.getElem?_set_eq_of_lt _ hn1
    rw [disposeServices, hnd2] at h
    dsimp only at h
    cases hdse : disposeEntryList n nd.services
        { W1 with nodes := W1.nodes.set n { nd with scopes := [] } } with
    | mk r2 W3 =>
    rw [hdse] at h
    cases r2 with
    | error e =>
      dsimp only at h
      injection h with h1 h2
      exact Except.noConfusion h1
    | ok u2 =>
      dsimp only at h
      obtain ⟨E3n, E3x, E3ev⟩ :=
        disposeEntryList_ok_events n nd.services
          { W1 with nodes := W1.nodes.set n { nd with scopes := [] } } W3 u2 hdse
      dsimp only at E3n E3ev
      have hnd3 : W3.nodes[n]? = some { nd with scopes := [] } := by
        rw [E3n]
        exact List.getElem?_set_eq_of_lt _ hn1
      have hW4 : W3.modifyNode n
          (fun nd0 => { nd0 with services := [], isDisposed := true }) =
          { W3 with nodes := (W3.nodes.set n
            { services := [], scopes := [], parent := nd.parent, isDisposed := true }) } := by
        simp only [World.modifyNode, hnd3]
      rw [hW4] at h
      injection h with h1 h2
      subst h2
      refine ⟨tail1, ?_, ?_, ?_⟩
      · show W3.events = _
        rw [E3ev, Lev, List.append_assoc]
      · intro ev hev
        obtain ⟨j, u, hju, c, hc, hcj⟩ := Ltags ev hev
        exact ⟨j, u, hju, lt_of_lt_of_le (hchild c hc) hcj⟩
      · intro c hc
        obtain ⟨ndc, hndc, hndcd⟩ := Lok rfl c hc
        have hcn : ¬n = c := Nat.ne_of_lt (hchild c hc)
        refine ⟨ndc, ?_, hndcd⟩
        show (W3.nodes.set n _)[c]? = _
        rw [List.getElem?_set_ne hcn, E3n, List.getElem?_set_ne hcn]
        exact hndc

/-- C6.  First part: a `dispose()` call on an already-disposed node
returns immediately with no side effects (no state change, no events,
no hooks run).  Second part: a successful `dispose()` on a non-disposed
node of a well-formed hierarchy appends first the events of the
recursive depth-first child disposals — every one of them the disposal
of an instance cached on a strict descendant (node index greater than
this node's) — and only after all of them the disposals of this node's
own cached instances; moreover every child scope ends up disposed. -/
theorem dispose_idempotent_children_before_own :
    (∀ (fuel n : Nat) (W : World) (nd : Node),
      W.node? n = some nd → nd.isDisposed = true →
      dispose (fuel + 1) n W = (Except.ok (), W)) ∧
    (∀ (fuel n : Nat) (W W2 : World) (nd : Node),
      wfScopes W → W.node? n = some nd → nd.isDisposed = false →
      dispose (fuel + 1) n W = (Except.ok (), W2) →
      ∃ childTail, W2.events = W.events ++ childTail ++ ownDisposeEvents n nd.services ∧
        (∀ ev ∈ childTail, ∃ j u, ev = Event.disp j u ∧ n < j) ∧
        (∀ c ∈ nd.scopes, ∃ ndc, W2.node? c = some ndc ∧ ndc.isDisposed = true)) := by
  constructor
  · intro fuel n W nd hnd hd
    simp only [dispose, hnd]
    rw [if_pos hd]
  · intro fuel n W W2 nd hwf hnd hd h
    exact dispose_ok_trace fuel n W W2 nd hwf hnd hd h

/-- C6 witness: the two parts evaluated on the concrete root/child
hierarchy with cached disposable instances — part two on the live
hierarchy, part one on the world left behind by disposing it. -/
theorem dispose_idempotent_children_before_own_witness :
    (dispose 1 0 (dispose 2 0 Ex.W6).2 = (Except.ok (), (dispose 2 0 Ex.W6).2)) ∧
    (∃ childTail, (dispose 2 0 Ex.W6).2.events =
        Ex.W6.events ++ childTail ++
          ownDisposeEvents 0 (Ex.W6.nodes.get ⟨0, by decide⟩).services ∧
      (∀ ev ∈ childTail, ∃ j u, ev = Event.disp j u ∧ 0 < j) ∧
      (∀ c ∈ (Ex.W6.nodes.get ⟨0, by decide⟩).scopes,
        ∃ ndc, (dispose 2 0 Ex.W6).2.node? c = some ndc ∧ ndc.isDisposed = true)) :=
  ⟨dispose_idempotent_children_before_own.1 0 0 (dispose 2 0 Ex.W6).2 _ rfl rfl,
   dispose_idempotent_children_before_own.2 1 0 Ex.W6 (dispose 2 0 Ex.W6).2 _ (by decide)
     rfl rfl rfl⟩

/-! Lemmas for `has` and `getTokens`. -/

theorem wfParents_lookup {W : World} {i : Nat} {nd : Node} {p : Nat}
    (h : wfParents W) (hnd : W.nodes[i]? = some nd) (hp : nd.parent = some p) : p < i := by
  obtain ⟨hl, he⟩ := List.getElem?_eq_some.mp hnd
  exact h i hl p (by rw [List.get_eq_getElem, he]; exact hp)

/-- Fuel irrelevance of `hasAux` under well-formed parent links: any fuel
exceeding the node index computes the same answer. -/
theorem hasAux_fuel {W : World} (hwf : wfParents W) (t : String) :
    ∀ n f g : Nat, n < f → n < g → hasAux f n t W = hasAux g n t W := by
  intro n
  induction n using Nat.strong_induction_on with
  | _ n ihn =>
    intro f g hf hg
    cases f with
    | zero => omega
    | succ f' =>
      cases g with
      | zero => omega
      | succ g' =>
        simp only [hasAux]
        cases hnd : W.node? n with
        | none => rfl
        | some nd =>
          cases hp : nd.parent with
          | none => simp only [hp]
          | some p =>
            have hpn : p < n := wfParents_lookup hwf hnd hp
            simp only [hp]
            rw [ihn p hpn f' g' (by omega) (by omega)]

theorem lookupEntry_isSome_iff (l : List (String × ServiceEntry)) (t : String) :
    (lookupEntry l t).isSome = true ↔ t ∈ l.map Prod.fst := by
  induction l with
  | nil => simp [lookupEntry]
  | cons hd tl ih =>
    obtain ⟨s, e⟩ := hd
    by_cases hst : s = t
    · subst hst
      simp [lookupEntry]
    · simp only [lookupEntry, if_neg hst, List.map_cons, List.mem_cons, ih]
      constructor
      · intro hh
        exact Or.inr hh
      · intro hh
        rcases hh with hh | hh
        · exact absurd hh.symm hst
        · exact hh

theorem mem_addToken (acc : List String) (a t : String) :
    t ∈ addToken acc a ↔ t ∈ acc ∨ t = a := by
  by_cases h : a ∈ acc
  · simp only [addToken, if_pos h]
    constructor
    · exact Or.inl
    · intro hh
      rcases hh with hh | hh
      · exact hh
      · exact hh ▸ h
  · simp [addToken, if_neg h]

theorem mem_foldl_addToken :
    ∀ (l acc : List String) (t : String),
      t ∈ l.foldl addToken acc ↔ t ∈ acc ∨ t ∈ l := by
  intro l
  induction l with
  | nil => simp
  | cons a rest ih =>
    intro acc t
    simp only [List.foldl_cons, ih, mem_addToken, List.mem_cons]
    tauto

theorem nodup_addToken (acc : List String) (a : String) (h : acc.Nodup) :
    (addToken acc a).Nodup := by
  by_cases ha : a ∈ acc
  · simpa [addToken, if_pos ha] using h
  · rw [addToken, if_neg ha]
    simp [List.nodup_append, h, ha]

theorem nodup_foldl_addToken :
    ∀ (l acc : List String), acc.Nodup → (l.foldl addToken acc).Nodup := by
  intro l
  induction l with
  | nil => intro acc h; simpa using h
  | cons a rest ih =>
    intro acc h
    exact ih (addToken acc a) (nodup_addToken acc a h)

theorem nodup_getTokensAux (W : World) : ∀ (f n : Nat), (getTokensAux f n W).Nodup := by
  intro f
  induction f with
  | zero => intro n; simp [getTokensAux]
  | succ f' ih =>
    intro n
    simp only [getTokensAux]
    cases hnd : W.node? n with
    | none => simp
    | some nd =>
      dsimp only
      have hown : ((nd.services.map Prod.fst).foldl addToken []).Nodup :=
        nodup_foldl_addToken _ [] List.nodup_nil
      cases hp : nd.parent with
      | none =>
        simp only [hp]
        exact hown
      | some p =>
        simp only [hp]
        exact nodup_foldl_addToken _ _ hown

theorem mem_getTokensAux (W : World) (t : String) :
    ∀ (f n : Nat), t ∈ getTokensAux f n W ↔ hasAux f n t W = true := by
  intro f
  induction f with
  | zero => intro n; simp [getTokensAux, hasAux]
  | succ f' ih =>
    intro n
    simp only [getTokensAux, hasAux]
    cases hnd : W.node? n with
    | none => simp
    | some nd =>
      dsimp only
      cases hp : nd.parent with
      | none =>
        simp only [hp]
        rw [mem_foldl_addToken]
        simp [lookupEntry_isSome_iff]
      | some p =>
        simp only [hp]
        rw [mem_foldl_addToken, mem_foldl_addToken]
        simp [lookupEntry_isSome_iff, ih p, Bool.or_eq_true]

/-- Looking a node up after overwriting some node's disposed flag: the
node is unchanged except possibly for that flag. -/
theorem setDisposed_node? (W : World) (m : Nat) (b : Bool) (n : Nat) :
    (W.setDisposed m b).node? n =
      (W.node? n).map (fun nd => if n = m then { nd with isDisposed := b } else nd) := by
  simp only [World.setDisposed, World.modifyNode]
  cases hm : W.nodes[m]? with
  | none =>
    simp only [hm]
    cases hn : W.node? n with
    | none => rfl
    | some nd =>
      have hnm : ¬n = m := by
        intro hh
        subst hh
        rw [show W.node? n = W.nodes[n]? from rfl, hm] at hn
        exact Option.noConfusion hn
      simp [hnm]
  | some ndm =>
    simp only [hm]
    by_cases hnm : n = m
    · subst hnm
      have hlt : n < W.nodes.length := (List.getElem?_eq_some.mp hm).1
      show (W.nodes.set n _)[n]? = _
      rw [List.getElem?_set_eq_of_lt _ hlt]
      show _ = (W.nodes[n]?).map _
      rw [hm]
      simp
    · show (W.nodes.set m _)[n]? = _
      rw [List.getElem?_set_ne (fun hh => hnm hh.symm)]
      show _ = (W.nodes[n]?).map _
      cases hn : W.nodes[n]? with
      | none => rfl
      | some nd => simp [hnm]

/-- `has` never consults the disposed flag: overwriting any node's flag
does not change its answer (in particular it cannot fail on a disposed
node — the source performs no `validateNotDisposed` check). -/
theorem hasAux_setDisposed (W : World) (m : Nat) (b : Bool) (t : String) :
    ∀ f n : Nat, hasAux f n t (W.setDisposed m b) = hasAux f n t W := by
  intro f
  induction f with
  | zero => intro n; rfl
  | succ f' ih =>
    intro n
    simp only [hasAux, setDisposed_node?]
    cases hnd : W.node? n with
    | none => rfl
    | some nd =>
      simp only [Option.map_some']
      have hserv : (if n = m then { nd with isDisposed := b } else nd).services = nd.services := by
        split <;> rfl
      have hpar : (if n = m then { nd with isDisposed := b } else nd).parent = nd.parent := by
        split <;> rfl
      rw [hserv, hpar]
      cases hp : nd.parent with
      | none => rfl
      | some p =>
        simp only [hp]
        rw [ih p]

/-- `getTokens` never consults the disposed flag either. -/
theorem getTokensAux_setDisposed (W : World) (m : Nat) (b : Bool) :
    ∀ f n : Nat, getTokensAux f n (W.setDisposed m b) = getTokensAux f n W := by
  intro f
  induction f with
  | zero => intro n; rfl
  | succ f' ih =>
    intro n
    simp only [getTokensAux, setDisposed_node?]
    cases hnd : W.node? n with
    | none => rfl
    | some nd =>
      simp only [Option.map_some']
      have hserv : (if n = m then { nd with isDisposed := b } else nd).services = nd.services := by
        split <;> rfl
      have hpar : (if n = m then { nd with isDisposed := b } else nd).parent = nd.parent := by
        split <;> rfl
      rw [hserv, hpar]
      cases hp : nd.parent with
      | none => rfl
      | some p =>
        simp only [hp]
        rw [ih p]

/-- C10.  `has` and `getTokens` are total (they throw nothing and perform
no disposed check: overwriting any disposed flag leaves their results
unchanged); `has` returns true exactly when the token is in the node's
own entry map or `has` holds on its parent; and `getTokens` is a
duplicate-free list containing a token exactly when `has` holds, i.e.
the union of the node's own tokens with all ancestors' tokens.  The
hypothesis is the reachable-world invariant that parent indices
decrease. -/
theorem has_getTokens_no_disposed_check
    (W : World) (hwf : wfParents W) (n : Nat) (nd : Node) (hnd : W.node? n = some nd) :
    (∀ t, has W n t =
      ((lookupEntry nd.services t).isSome ||
        (match nd.parent with | some p => has W p t | none => false))) ∧
    (∀ (t : String) (m : Nat) (b : Bool), has (W.setDisposed m b) n t = has W n t) ∧
    (∀ (m : Nat) (b : Bool), getTokens (W.setDisposed m b) n = getTokens W n) ∧
    (getTokens W n).Nodup ∧
    (∀ t, t ∈ getTokens W n ↔ has W n t = true) := by
  refine ⟨?_, ?_, ?_, nodup_getTokensAux W (n + 1) n, fun t => mem_getTokensAux W t (n + 1) n⟩
  · intro t
    show hasAux (n + 1) n t W = _
    simp only [hasAux, hnd]
    cases hp : nd.parent with
    | none => simp only [hp]
    | some p =>
      simp only [hp]
      have hpn : p < n := wfParents_lookup hwf hnd hp
      rw [hasAux_fuel hwf t p n (p + 1) hpn (by omega)]
      rfl
  · intro t m b
    exact hasAux_setDisposed W m b t (n + 1) n
  · intro m b
    exact getTokensAux_setDisposed W m b (n + 1) n

/-- C10 witness: the recurrence, flag independence, duplicate freedom and
membership characterisation evaluated on the concrete hierarchy at
child scope 1 and token `s`. -/
theorem has_getTokens_no_disposed_check_witness :
    (has Ex.W3 1 ("s") =
      ((lookupEntry (Ex.W3.nodes.get ⟨1, by decide⟩).services ("s")).isSome ||
        has Ex.W3 0 ("s"))) ∧
    (has (Ex.W3.setDisposed 1 true) 1 ("s") = has Ex.W3 1 ("s")) ∧
    (getTokens (Ex.W3.setDisposed 0 true) 1 = getTokens Ex.W3 1) ∧
    (getTokens Ex.W3 1).Nodup ∧
    (("s") ∈ getTokens Ex.W3 1 ↔ has Ex.W3 1 ("s") = true) :=
  ⟨(has_getTokens_no_disposed_check Ex.W3 (by decide) 1 _ rfl).1 ("s"),
   (has_getTokens_no_disposed_check Ex.W3 (by decide) 1 _ rfl).2.1 ("s") 1 true,
   (has_getTokens_no_disposed_check Ex.W3 (by decide) 1 _ rfl).2.2.1 0 true,
   (has_getTokens_no_disposed_check Ex.W3 (by decide) 1 _ rfl).2.2.2.1,
   (has_getTokens_no_disposed_check Ex.W3 (by decide) 1 _ rfl).2.2.2.2 ("s")⟩

end FlowContainer
